import Mathlib

/-!
Verification development for the AirSim-Studio multizone airflow and
contaminant-transport engine.  The C++ sources under `src/engine` are given a
shallow embedding: `double` becomes `ℝ`, loops over `std::vector` become
structural recursion over `List`, and Eigen matrices/vectors become functions
`ℕ → ℕ → ℝ` / `ℕ → ℝ`.  Each definition mirrors one C++ function and cites it.
-/

namespace AirSim

noncomputable section

/-- Modelled from the spec: `utils/Constants.h` is not part of the published
sources; §6 of the specification fixes the linearisation threshold
`DP_MIN = 10⁻⁴ Pa`. -/
def DP_MIN : ℝ := 1e-4

/-- Result record of `FlowElement::calculate` (`elements/FlowElement.h`,
declared by every element): mass flow `ṁ` (kg/s) and derivative `dṁ/dΔP`. -/
structure FlowResult where
  massFlow : ℝ
  derivative : ℝ

/-! ## PowerLawOrifice (`elements/PowerLawOrifice.{h,cpp}`) -/

/-- Parameters of `PowerLawOrifice`: flow coefficient `C_` and exponent `n_`
(constructor requires `C > 0`, `0.5 ≤ n ≤ 1`). -/
structure PowerLawOrifice where
  C : ℝ
  n : ℝ

/-- `PowerLawOrifice` constructor, line 20: chord slope
`linearSlope_ = C_ * pow(DP_MIN, n_ - 1.0)`. -/
def PowerLawOrifice.linearSlope (e : PowerLawOrifice) : ℝ :=
  e.C * DP_MIN ^ (e.n - 1)

/-- `PowerLawOrifice::calculate`, linearised branch (lines 29-34):
`massFlow = density * linearSlope_ * deltaP`, `derivative = density * linearSlope_`. -/
def PowerLawOrifice.linArm (e : PowerLawOrifice) (deltaP density : ℝ) : FlowResult :=
  ⟨density * e.linearSlope * deltaP, density * e.linearSlope⟩

/-- `PowerLawOrifice::calculate`, power-law branch (lines 35-44):
`ṁ = ρ·C·|ΔP|^n·sign(ΔP)`, `d = ρ·n·C·|ΔP|^(n-1)`. -/
def PowerLawOrifice.powArm (e : PowerLawOrifice) (deltaP density : ℝ) : FlowResult :=
  ⟨density * (e.C * |deltaP| ^ e.n) * (if deltaP ≥ 0 then (1 : ℝ) else -1),
   density * e.n * e.C * |deltaP| ^ (e.n - 1)⟩

/-- `PowerLawOrifice::calculate` (PowerLawOrifice.cpp lines 23-47). -/
def PowerLawOrifice.calculate (e : PowerLawOrifice) (deltaP density : ℝ) : FlowResult :=
  if |deltaP| < DP_MIN then e.linArm deltaP density else e.powArm deltaP density

/-! ## CheckValve (`elements/CheckValve.{h,cpp}`) -/

/-- Parameters of `CheckValve` (constructor requires `C > 0`, `0.5 ≤ n ≤ 1`). -/
structure CheckValve where
  C : ℝ
  n : ℝ

/-- `CheckValve` constructor, lines 13-15: slope from the flow at `DP_MIN`
evaluated at the fixed reference density `rho_ref = 1.2`:
`linearSlope_ = (1.2 * C_ * pow(DP_MIN, n_)) / DP_MIN`.  Note the density
argument of `calculate` does not enter this slope. -/
def CheckValve.linearSlope (e : CheckValve) : ℝ :=
  1.2 * e.C * DP_MIN ^ e.n / DP_MIN

/-- `CheckValve::calculate`, linearised branch (lines 27-29):
`massFlow = linearSlope_ * deltaP` (no density factor), `derivative = linearSlope_`. -/
def CheckValve.linArm (e : CheckValve) (deltaP density : ℝ) : FlowResult :=
  ⟨e.linearSlope * deltaP, e.linearSlope⟩

/-- `CheckValve::calculate`, power-law branch (lines 30-34). -/
def CheckValve.powArm (e : CheckValve) (deltaP density : ℝ) : FlowResult :=
  ⟨density * e.C * deltaP ^ e.n, density * e.n * e.C * deltaP ^ (e.n - 1)⟩

/-- `CheckValve::calculate` (CheckValve.cpp lines 18-37): blocked when
`ΔP ≤ 0` (zero flow, tiny derivative `density * 1e-12`). -/
def CheckValve.calculate (e : CheckValve) (deltaP density : ℝ) : FlowResult :=
  if deltaP ≤ 0 then ⟨0, density * 1e-12⟩
  else if deltaP < DP_MIN then e.linArm deltaP density
  else e.powArm deltaP density

/-! ## BackdraftDamper (`elements/BackdraftDamper.{h,cpp}`) -/

/-- Parameters of `BackdraftDamper` (constructor requires `Cf, Cr > 0` and
`0.5 ≤ nf, nr ≤ 1`). -/
structure BackdraftDamper where
  Cf : ℝ
  nf : ℝ
  Cr : ℝ
  nr : ℝ

/-- Constructor line 16: `linearSlopeFwd_ = Cf_ * pow(DP_MIN, nf_ - 1.0)`. -/
def BackdraftDamper.linearSlopeFwd (e : BackdraftDamper) : ℝ :=
  e.Cf * DP_MIN ^ (e.nf - 1)

/-- Constructor line 17: `linearSlopeRev_ = Cr_ * pow(DP_MIN, nr_ - 1.0)`. -/
def BackdraftDamper.linearSlopeRev (e : BackdraftDamper) : ℝ :=
  e.Cr * DP_MIN ^ (e.nr - 1)

/-- `BackdraftDamper::calculate`, linearised branch (lines 24-30): uses the
average of the forward and reverse slopes. -/
def BackdraftDamper.linArm (e : BackdraftDamper) (deltaP density : ℝ) : FlowResult :=
  ⟨density * ((e.linearSlopeFwd + e.linearSlopeRev) / 2) * deltaP,
   density * ((e.linearSlopeFwd + e.linearSlopeRev) / 2)⟩

/-- `BackdraftDamper::calculate`, power-law branches (lines 32-42): forward
coefficients for `ΔP ≥ 0`, reverse coefficients (negated flow) otherwise. -/
def BackdraftDamper.powArm (e : BackdraftDamper) (deltaP density : ℝ) : FlowResult :=
  if deltaP ≥ 0 then
    ⟨density * (e.Cf * |deltaP| ^ e.nf), density * e.nf * e.Cf * |deltaP| ^ (e.nf - 1)⟩
  else
    ⟨-(density * (e.Cr * |deltaP| ^ e.nr)), density * e.nr * e.Cr * |deltaP| ^ (e.nr - 1)⟩

/-- `BackdraftDamper::calculate` (BackdraftDamper.cpp lines 20-45). -/
def BackdraftDamper.calculate (e : BackdraftDamper) (deltaP density : ℝ) : FlowResult :=
  if |deltaP| < DP_MIN then e.linArm deltaP density else e.powArm deltaP density

/-! ## Fan (`elements/Fan.{h,cpp}`) -/

/-- `Fan` data (Fan.h lines 34-38): simple linear mode (`usePolynomial_ = false`,
`maxFlow_`, `shutoffPressure_`) or polynomial curve mode. -/
structure Fan where
  maxFlow : ℝ
  shutoffPressure : ℝ
  usePolynomial : Bool
  coeffs : List ℝ

/-- `Fan::evalCurve` (Fan.cpp lines 59-67): `ΔP_fan(Q) = Σ coeffs[i]·Q^i`. -/
def Fan.evalCurve (f : Fan) (Q : ℝ) : ℝ :=
  (f.coeffs.enum.map (fun p => p.2 * Q ^ p.1)).sum

/-- `Fan::evalCurveDerivative` (Fan.cpp lines 69-77):
`dΔP_fan/dQ = Σ_{i≥1} i·coeffs[i]·Q^(i-1)`. -/
def Fan.evalCurveDerivative (f : Fan) (Q : ℝ) : ℝ :=
  ((f.coeffs.enum.drop 1).map (fun p => (p.1 : ℝ) * p.2 * Q ^ (p.1 - 1))).sum

/-- Newton iteration body of `Fan::solveForFlow` (Fan.cpp lines 82-90), with
the loop count as explicit fuel. -/
def Fan.solveGo (f : Fan) (deltaP : ℝ) : ℕ → ℝ → ℝ
  | 0, Q => Q
  | k + 1, Q =>
      let fv := f.evalCurve Q - deltaP
      let fp := f.evalCurveDerivative Q
      if |fp| < 1e-20 then Q
      else
        let dQ := -fv / fp
        let Q1 := Q + dQ
        let Q2 := if Q1 < 0 then 0 else Q1
        if |dQ| < 1e-12 then Q2 else f.solveGo deltaP k Q2

/-- `Fan::solveForFlow` (Fan.cpp lines 79-92): 50 Newton iterations from the
initial guess `maxFlow_ > 0 ? maxFlow_*0.5 : 0.05`. -/
def Fan.solveForFlow (f : Fan) (deltaP : ℝ) : ℝ :=
  f.solveGo deltaP 50 (if f.maxFlow > 0 then f.maxFlow * 0.5 else 0.05)

/-- `Fan::calculate` (Fan.cpp lines 31-57).  In simple mode
`Q = maxFlow·(1 - ΔP/shutoff)` clamped at 0 and `dQ/dΔP = -maxFlow/shutoff`;
in polynomial mode the curve is Newton-inverted.  In both modes the returned
derivative is `density·dQdP`, overridden by `-density·1e-10` when `Q ≤ 0`. -/
def Fan.calculate (f : Fan) (deltaP density : ℝ) : FlowResult :=
  if f.usePolynomial then
    let Q0 := f.solveForFlow deltaP
    let Q := if Q0 < 0 then 0 else Q0
    let dPdQ := f.evalCurveDerivative Q
    let dQdP := if |dPdQ| > 1e-15 then 1 / dPdQ else -1e-10
    ⟨density * Q, if Q ≤ 0 then -density * 1e-10 else density * dQdP⟩
  else
    let Q0 := f.maxFlow * (1 - deltaP / f.shutoffPressure)
    let Q := if Q0 < 0 then 0 else Q0
    let dQdP := -f.maxFlow / f.shutoffPressure
    ⟨density * Q, if Q ≤ 0 then -density * 1e-10 else density * dQdP⟩

/-! ## Controller (`control/Controller.h`) -/

/-- Semantics of `std::clamp(v, lo, hi)` from the C++ standard library:
`v < lo ? lo : (hi < v ? hi : v)`. -/
def stdClamp (v lo hi : ℝ) : ℝ :=
  if v < lo then lo else if hi < v then hi else v

/-- State of the incremental PI `Controller` (Controller.h lines 11-40);
identity and wiring fields (id, name, sensorId, actuatorId) are omitted as
they do not enter `update`. -/
structure Controller where
  setpoint : ℝ
  Kp : ℝ
  Ki : ℝ
  deadband : ℝ
  outputMin : ℝ
  outputMax : ℝ
  output : ℝ
  prevError : ℝ
  integral : ℝ

/-- `Controller::update` (Controller.h lines 43-65), returning the mutated
controller state together with the returned output. -/
def Controller.update (c : Controller) (sensorValue dt : ℝ) : Controller × ℝ :=
  let error0 := c.setpoint - sensorValue
  let error := if |error0| < c.deadband then 0 else error0
  let integral1 := c.integral + error * dt
  let rawOutput := c.Kp * error + c.Ki * integral1
  let output := stdClamp rawOutput c.outputMin c.outputMax
  let integral2 := if output ≠ rawOutput then integral1 - error * dt else integral1
  ({ c with output := output, prevError := error, integral := integral2 }, output)

/-! ## Schedule (`core/Schedule.h`) -/

/-- `SchedulePoint` (Schedule.h lines 9-15). -/
structure SchedulePoint where
  time : ℝ
  value : ℝ

instance : Inhabited SchedulePoint := ⟨⟨0, 1⟩⟩

/-- Piecewise-linear `Schedule` (Schedule.h lines 21-64); the id/name fields
are omitted (the schedule map carries the id). -/
structure Schedule where
  points : List SchedulePoint

/-- Bracketing-interval search of `Schedule::getValue` (Schedule.h lines
49-57): scan consecutive pairs; on a bracket, interpolate (with the
`dt < 1e-15` guard); fallthrough returns the last value. -/
def interpPoints : List SchedulePoint → ℝ → ℝ
  | [], _ => 1
  | [p], _ => p.value
  | p1 :: p2 :: rest, t =>
      if t ≥ p1.time ∧ t ≤ p2.time then
        if p2.time - p1.time < 1e-15 then p1.value
        else
          p1.value * (1 - (t - p1.time) / (p2.time - p1.time)) +
            p2.value * ((t - p1.time) / (p2.time - p1.time))
      else interpPoints (p2 :: rest) t

/-- `Schedule::getValue` (Schedule.h lines 39-58): empty list yields 1,
a single point yields its value, times outside the range clamp to the
endpoint values, and interior times interpolate linearly. -/
def Schedule.getValue (s : Schedule) (t : ℝ) : ℝ :=
  if s.points.isEmpty then 1
  else if s.points.length = 1 then (s.points.headD default).value
  else if t ≤ (s.points.headD default).time then (s.points.headD default).value
  else if t ≥ (s.points.getLastD default).time then (s.points.getLastD default).value
  else interpPoints s.points t

/-! ## Species and sources (`core/Species.h`) -/

/-- `SourceType` (Species.h lines 23-28). -/
inductive SourceType where
  | Constant
  | ExponentialDecay
  | PressureDriven
  | CutoffConcentration
deriving DecidableEq

/-- `Species` (Species.h lines 7-20); the name string is omitted. -/
structure Species where
  id : ℤ := 0
  molarMass : ℝ := 0.029
  decayRate : ℝ := 0
  outdoorConc : ℝ := 0
  isTrace : Bool := true

instance : Inhabited Species := ⟨{}⟩

/-- `Source` (Species.h lines 31-53) with the default-constructor values. -/
structure Source where
  zoneId : ℤ := 0
  speciesId : ℤ := 0
  type : SourceType := SourceType.Constant
  generationRate : ℝ := 0
  removalRate : ℝ := 0
  scheduleId : ℤ := -1
  decayTimeConstant : ℝ := 3600
  startTime : ℝ := 0
  multiplier : ℝ := 1

/-- `Source::makeDecay` (Species.h lines 56-67). -/
def Source.makeDecay (zoneId speciesId : ℤ) (G0 tauC : ℝ) (startT : ℝ := 0)
    (mult : ℝ := 1) : Source :=
  { zoneId := zoneId, speciesId := speciesId, type := SourceType.ExponentialDecay,
    generationRate := G0, decayTimeConstant := tauC, startTime := startT,
    multiplier := mult }

/-! ## Network data model

`core/Network.h` and the `Link` class are not part of the published sources;
the structures below are modelled from the spec (§3 data model, §4.2): a node
carries type, gauge pressure, temperature, elevation, volume and density; a
link carries its endpoints (indices), reference elevation and the cached mass
flow and derivative; the network holds ordered node and link lists. -/

/-- `NodeType` (core/Node.h lines 12-17). -/
inductive NodeType where
  | Normal
  | Phantom
  | Ambient
  | CFD
deriving DecidableEq

/-- `Node` state (core/Node.h lines 103-112); the name string and the
wind-pressure metadata are omitted (they do not enter the claims). -/
structure Node where
  id : ℤ := 0
  type : NodeType := NodeType.Normal
  pressure : ℝ := 0
  temperature : ℝ := 293.15
  elevation : ℝ := 0
  volume : ℝ := 0
  density : ℝ := 0

instance : Inhabited Node := ⟨{}⟩

/-- `Node::isKnownPressure` (core/Node.h line 46): ambient nodes have known
(Dirichlet) pressure. -/
def Node.isKnownPressure (n : Node) : Prop := n.type = NodeType.Ambient

instance (n : Node) : Decidable n.isKnownPressure :=
  inferInstanceAs (Decidable (n.type = NodeType.Ambient))

/-- Modelled from the spec: `Link` data (§3) — endpoints `fromIdx`/`toIdx`,
reference elevation, cached mass flow (kg/s) and cached `dṁ/dΔP`. -/
structure Link where
  nodeFrom : ℕ := 0
  nodeTo : ℕ := 0
  elevation : ℝ := 0
  massFlow : ℝ := 0
  derivative : ℝ := 0

/-- Modelled from the spec: `Network` (§4.2) — ordered lists of nodes and
links. -/
structure Network where
  nodes : List Node := []
  links : List Link := []

/-- `Network::getNode` by index (out-of-range reads yield the
default-constructed node). -/
def Network.node (net : Network) (i : ℕ) : Node :=
  net.nodes.getD i default

/-- Modelled from the spec: `Network::getNodeIndexById` (§4.2 id→index maps),
returning `-1` when the id is unknown. -/
def Network.getNodeIndexById (net : Network) (id : ℤ) : ℤ :=
  match net.nodes.findIdx? (fun n => n.id = id) with
  | some i => (i : ℤ)
  | none => -1

/-! ## ContaminantSolver (`core/ContaminantSolver.{h,cpp}`)

The solver state `C_[zone][species]` is embedded as a function `ℕ → ℕ → ℝ`,
the Eigen matrix `A` as `ℕ → ℕ → ℝ` and the vector `b` as `ℕ → ℝ`.  The
`colPivHouseholderQr().solve` call (line 182) is an external Eigen routine and
is taken as an arbitrary function argument `linSolve`. -/

/-- Pointwise increment `v(i) += x` of an Eigen vector. -/
def addVec (v : ℕ → ℝ) (i : ℕ) (x : ℝ) : ℕ → ℝ :=
  fun i2 => if i2 = i then v i2 + x else v i2

/-- Pointwise increment `A(r,c) += x` of an Eigen matrix. -/
def addMat (A : ℕ → ℕ → ℝ) (r c : ℕ) (x : ℝ) : ℕ → ℕ → ℝ :=
  fun r2 c2 => if r2 = r ∧ c2 = c then A r2 c2 + x else A r2 c2

/-- Construction of the unknown-equation map (ContaminantSolver.cpp lines
66-72 and Solver.cpp lines 223-229): non-ambient nodes get consecutive
equation indices starting from the counter, ambient nodes get `-1`. -/
def buildUnknownMap : List Node → ℤ → List ℤ
  | [], _ => []
  | n :: rest, c =>
      if n.isKnownPressure then (-1) :: buildUnknownMap rest c
      else c :: buildUnknownMap rest (c + 1)

/-- The unknown map as a total function (out-of-range indices read `-1`). -/
def unknownMapFn (nodes : List Node) : ℕ → ℤ :=
  fun i => (buildUnknownMap nodes 0).getD i (-1)

/-- `numUnknown` of ContaminantSolver.cpp lines 66-72: the count of
non-ambient zones. -/
def countUnknown : List Node → ℕ
  | [] => 0
  | n :: rest => (if n.isKnownPressure then 0 else 1) + countUnknown rest

/-- Schedule map (`std::map<int, Schedule>`) lookup by key. -/
def lookupSchedule (schedules : List (ℤ × Schedule)) (id : ℤ) : Option Schedule :=
  (schedules.find? (fun p => p.1 = id)).map (fun p => p.2)

/-- `ContaminantSolver::getScheduleValue` (ContaminantSolver.cpp lines 35-40):
negative ids and unregistered ids both yield the multiplier 1. -/
def getScheduleValue (schedules : List (ℤ × Schedule)) (scheduleId : ℤ) (t : ℝ) : ℝ :=
  if scheduleId < 0 then 1
  else
    match lookupSchedule schedules scheduleId with
    | none => 1
    | some s => s.getValue t

/-- Generation term a source adds to the right-hand side in
`ContaminantSolver::solveSpecies` (lines 169-172):
`G * schedule(t + dt)`, with no dispatch on the source type. -/
def sourceGenerationTerm (schedules : List (ℤ × Schedule)) (src : Source)
    (t dt : ℝ) : ℝ :=
  src.generationRate * getScheduleValue schedules src.scheduleId (t + dt)

/-- Generation term according to the specification (§3 Source, §4.4):
`ExponentialDecay` sources contribute `mult·G₀·exp(-(t+dt - t_start)/τ_c)` in
place of the constant-source term `G·schedule(t+dt)`.  This definition
transcribes the spec for comparison with `sourceGenerationTerm`. -/
def specSourceGenerationTerm (schedules : List (ℤ × Schedule)) (src : Source)
    (t dt : ℝ) : ℝ :=
  match src.type with
  | SourceType.ExponentialDecay =>
      src.multiplier * src.generationRate *
        Real.exp (-((t + dt - src.startTime) / src.decayTimeConstant))
  | _ => src.generationRate * getScheduleValue schedules src.scheduleId (t + dt)

/-- Substituted zone volume of `solveSpecies` (ContaminantSolver.cpp line 92):
`if (Vi <= 0.0) Vi = 1.0`. -/
def effVolume (node : Node) : ℝ :=
  if node.volume ≤ 0 then 1 else node.volume

/-- Diagonal loop of `solveSpecies` (ContaminantSolver.cpp lines 84-105):
for each unknown zone add `V/dt` (and decay `λ·V` when `λ > 0`) to the
diagonal and `V/dt · C_old` to the right-hand side.  The list recursion
carries the current zone index. -/
def diagLoop (um : ℕ → ℤ) (dt lam : ℝ) (Cspec : ℕ → ℝ) :
    List Node → ℕ → (ℕ → ℕ → ℝ) × (ℕ → ℝ) → (ℕ → ℕ → ℝ) × (ℕ → ℝ)
  | [], _, Ab => Ab
  | node :: rest, i, (A, b) =>
      if um i < 0 then diagLoop um dt lam Cspec rest (i + 1) (A, b)
      else
        let e := (um i).toNat
        let Vi := effVolume node
        let A1 := addMat A e e (Vi / dt)
        let b1 := addVec b e (Vi / dt * Cspec i)
        let A2 := if lam > 0 then addMat A1 e e (lam * Vi) else A1
        diagLoop um dt lam Cspec rest (i + 1) (A2, b1)

/-- Flow loop of `solveSpecies` (ContaminantSolver.cpp lines 107-157): each
link with positive mass flow takes node `from` as the donor, negative mass
flow takes node `to`; the volumetric rate `ṁ/ρ_donor` is stamped on the
donor diagonal, the receiver off-diagonal (or onto `b` when the donor is
ambient). -/
def flowLoop (net : Network) (um : ℕ → ℤ) (Cspec : ℕ → ℝ) :
    List Link → (ℕ → ℕ → ℝ) × (ℕ → ℝ) → (ℕ → ℕ → ℝ) × (ℕ → ℝ)
  | [], Ab => Ab
  | link :: rest, (A, b) =>
      let nodeI := link.nodeFrom
      let nodeJ := link.nodeTo
      let m := link.massFlow
      if m > 0 then
        let flowRate := m / (net.node nodeI).density
        let A1 := if 0 ≤ um nodeI then addMat A (um nodeI).toNat (um nodeI).toNat flowRate else A
        let Ab2 :=
          if 0 ≤ um nodeJ then
            if 0 ≤ um nodeI then
              (addMat A1 (um nodeJ).toNat (um nodeI).toNat (-flowRate), b)
            else
              (A1, addVec b (um nodeJ).toNat (flowRate * Cspec nodeI))
          else (A1, b)
        flowLoop net um Cspec rest Ab2
      else if m < 0 then
        let flowRate := -m / (net.node nodeJ).density
        let A1 := if 0 ≤ um nodeJ then addMat A (um nodeJ).toNat (um nodeJ).toNat flowRate else A
        let Ab2 :=
          if 0 ≤ um nodeI then
            if 0 ≤ um nodeJ then
              (addMat A1 (um nodeI).toNat (um nodeJ).toNat (-flowRate), b)
            else
              (A1, addVec b (um nodeI).toNat (flowRate * Cspec nodeJ))
          else (A1, b)
        flowLoop net um Cspec rest Ab2
      else flowLoop net um Cspec rest (A, b)

/-- Source loop of `solveSpecies` (ContaminantSolver.cpp lines 159-179):
sources of the current species in a known unknown zone add the generation
term to `b` and, when `removalRate > 0`, the removal sink
`removalRate · V` (raw volume) to the diagonal. -/
def sourceLoop (net : Network) (um : ℕ → ℤ) (specId : ℤ)
    (schedules : List (ℤ × Schedule)) (t dt : ℝ) :
    List Source → (ℕ → ℕ → ℝ) × (ℕ → ℝ) → (ℕ → ℕ → ℝ) × (ℕ → ℝ)
  | [], Ab => Ab
  | src :: rest, (A, b) =>
      if src.speciesId ≠ specId then sourceLoop net um specId schedules t dt rest (A, b)
      else
        let zoneIdx := net.getNodeIndexById src.zoneId
        if zoneIdx < 0 then sourceLoop net um specId schedules t dt rest (A, b)
        else
          let eq := um zoneIdx.toNat
          if eq < 0 then sourceLoop net um specId schedules t dt rest (A, b)
          else
            let b1 := addVec b eq.toNat (sourceGenerationTerm schedules src t dt)
            let A1 :=
              if src.removalRate > 0 then
                addMat A eq.toNat eq.toNat (src.removalRate * (net.node zoneIdx.toNat).volume)
              else A
            sourceLoop net um specId schedules t dt rest (A1, b1)

/-- Assembly of the per-species implicit system `A · C_new = b`
(ContaminantSolver.cpp lines 80-179): zero-initialised matrix and vector,
then the diagonal, flow and source loops in program order. -/
def assembleSpeciesSystem (net : Network) (species : List Species)
    (sources : List Source) (schedules : List (ℤ × Schedule))
    (C : ℕ → ℕ → ℝ) (specIdx : ℕ) (t dt : ℝ) : (ℕ → ℕ → ℝ) × (ℕ → ℝ) :=
  let um := unknownMapFn net.nodes
  let Cspec := fun i => C i specIdx
  let Ab0 := diagLoop um dt (species.getD specIdx default).decayRate Cspec net.nodes 0
    (fun _ _ => 0, fun _ => 0)
  let Ab1 := flowLoop net um Cspec net.links Ab0
  sourceLoop net um (species.getD specIdx default).id schedules t dt sources Ab1

/-- `ContaminantSolver::solveSpecies` (ContaminantSolver.cpp lines 64-191):
assemble and solve the implicit system, then overwrite the current species'
column of `C` for unknown zones with the solution clamped at zero.
`linSolve` stands for Eigen's `colPivHouseholderQr().solve`. -/
def solveSpecies (net : Network) (species : List Species) (sources : List Source)
    (schedules : List (ℤ × Schedule))
    (linSolve : (ℕ → ℕ → ℝ) → (ℕ → ℝ) → (ℕ → ℝ))
    (C : ℕ → ℕ → ℝ) (specIdx : ℕ) (t dt : ℝ) : ℕ → ℕ → ℝ :=
  let um := unknownMapFn net.nodes
  if countUnknown net.nodes = 0 then C
  else
    let Ab := assembleSpeciesSystem net species sources schedules C specIdx t dt
    let Cnew := linSolve Ab.1 Ab.2
    fun i k =>
      if i < net.nodes.length ∧ k = specIdx ∧ 0 ≤ um i then
        max 0 (Cnew (um i).toNat)
      else C i k

/-- `ContaminantSolver::step` (ContaminantSolver.cpp lines 42-62): with no
species the state is returned unchanged; otherwise each species is solved in
turn and ambient zones are then reset to the species' outdoor
concentrations. -/
def ContaminantSolver.step (net : Network) (species : List Species)
    (sources : List Source) (schedules : List (ℤ × Schedule))
    (linSolve : (ℕ → ℕ → ℝ) → (ℕ → ℝ) → (ℕ → ℝ))
    (C : ℕ → ℕ → ℝ) (t dt : ℝ) : ℕ → ℕ → ℝ :=
  if species.length = 0 then C
  else
    let C1 := (List.range species.length).foldl
      (fun Cacc k => solveSpecies net species sources schedules linSolve Cacc k t dt) C
    fun i k =>
      if i < net.nodes.length ∧ (net.node i).isKnownPressure ∧ k < species.length then
        (species.getD k default).outdoorConc
      else C1 i k

/-! ## Airflow solver assembly (`core/Solver.cpp`) -/

/-- Triplets emitted for one link by `Solver::assembleSystem` (Solver.cpp
lines 85-96), in `emplace_back` order: `(a,a,-d)`, `(a,b,+d)`, `(b,b,-d)`,
`(b,a,+d)`, each guarded by its equation indices being `≥ 0`. -/
def linkTriplets (um : ℕ → ℤ) (l : Link) : List (ℕ × ℕ × ℝ) :=
  let a := um l.nodeFrom
  let b := um l.nodeTo
  (if 0 ≤ a then
      [(a.toNat, a.toNat, -l.derivative)] ++
        (if 0 ≤ b then [(a.toNat, b.toNat, l.derivative)] else [])
    else []) ++
  (if 0 ≤ b then
      [(b.toNat, b.toNat, -l.derivative)] ++
        (if 0 ≤ a then [(b.toNat, a.toNat, l.derivative)] else [])
    else [])

/-- One-link body of the assembly loop (Solver.cpp lines 61-97): residual
update `R[a] -= ṁ`, `R[b] += ṁ` plus the four Jacobian triplets appended to
the triplet list. -/
def stampLink (um : ℕ → ℤ) (acc : List (ℕ × ℕ × ℝ) × (ℕ → ℝ)) (l : Link) :
    List (ℕ × ℕ × ℝ) × (ℕ → ℝ) :=
  let a := um l.nodeFrom
  let b := um l.nodeTo
  let R1 := if 0 ≤ a then addVec acc.2 a.toNat (-l.massFlow) else acc.2
  let R2 := if 0 ≤ b then addVec R1 b.toNat l.massFlow else R1
  (acc.1 ++ linkTriplets um l, R2)

/-- Semantics of Eigen's `setFromTriplets` (Solver.cpp line 99): the matrix
entry at `(i,j)` is the sum of all triplet values with those indices
(duplicates are summed, not overwritten). -/
def setFromTriplets (ts : List (ℕ × ℕ × ℝ)) : ℕ → ℕ → ℝ :=
  fun i j => ((ts.filter (fun tr => tr.1 = i ∧ tr.2.1 = j)).map (fun tr => tr.2.2)).sum

/-- `Solver::assembleSystem` (Solver.cpp lines 47-100): fold the links over a
zero residual and an empty triplet list, then materialise the Jacobian. -/
def assembleSystem (um : ℕ → ℤ) (links : List Link) : (ℕ → ℕ → ℝ) × (ℕ → ℝ) :=
  let acc := links.foldl (stampLink um) ([], fun _ => 0)
  (setFromTriplets acc.1, acc.2)

/-- Jacobian stamp of a single link as stated by the spec (§4.3): if `a ≥ 0`
then `J[a,a] += -d` and (if `b ≥ 0`) `J[a,b] += +d`; if `b ≥ 0` then
`J[b,b] += -d` and (if `a ≥ 0`) `J[b,a] += +d`.  This definition transcribes
the spec's stamps for comparison with `assembleSystem`. -/
def specStampJ (um : ℕ → ℤ) (l : Link) (i j : ℕ) : ℝ :=
  (if um l.nodeFrom = (i : ℤ) ∧ um l.nodeFrom = (j : ℤ) then -l.derivative else 0) +
  (if um l.nodeFrom = (i : ℤ) ∧ um l.nodeTo = (j : ℤ) then l.derivative else 0) +
  (if um l.nodeTo = (i : ℤ) ∧ um l.nodeTo = (j : ℤ) then -l.derivative else 0) +
  (if um l.nodeTo = (i : ℤ) ∧ um l.nodeFrom = (j : ℤ) then l.derivative else 0)

/-- Residual stamp of a single link as stated by the spec (§4.3): if `a ≥ 0`
then `R[a] -= ṁ`; if `b ≥ 0` then `R[b] += ṁ`. -/
def specStampR (um : ℕ → ℤ) (l : Link) (i : ℕ) : ℝ :=
  (if um l.nodeFrom = (i : ℤ) then -l.massFlow else 0) +
  (if um l.nodeTo = (i : ℤ) then l.massFlow else 0)

/-! ## Trust-region update (`core/Solver.cpp` lines 113-145) -/

/-- Euclidean norm of an Eigen vector (`dP.norm()`). -/
def vecNorm (v : List ℝ) : ℝ :=
  Real.sqrt ((v.map (fun x => x ^ 2)).sum)

/-- Pressure-update loop of `Solver::applyUpdateTR` (Solver.cpp lines
126-132): each node with an equation index gets `p += scale * dP(eq)`. -/
def updatePressuresScaled (um : ℕ → ℤ) (dP : List ℝ) (scale : ℝ) :
    List Node → ℕ → List Node
  | [], _ => []
  | node :: rest, i =>
      (if 0 ≤ um i then
        { node with pressure := node.pressure + scale * dP.getD (um i).toNat 0 }
      else node) :: updatePressuresScaled um dP scale rest (i + 1)

/-- `Solver::applyUpdateTR` (Solver.cpp lines 113-145).  The radius bounds
`TR_MIN_RADIUS` / `TR_MAX_RADIUS` live in `core/Solver.h`, which is not part
of the published sources; per spec §6 they are configuration values, so they
are taken as parameters `trMin` / `trMax`.  Returns the updated node list and
the updated trust radius. -/
def applyUpdateTR (nodes : List Node) (um : ℕ → ℤ) (dP : List ℝ)
    (trustRadius trMin trMax : ℝ) : List Node × ℝ :=
  let stepNorm := vecNorm dP
  let scale := if stepNorm > trustRadius then trustRadius / stepNorm else 1
  let nodes2 := updatePressuresScaled um dP scale nodes 0
  let tr2 := if scale < 1 then max (trustRadius * 0.5) trMin
    else min (trustRadius * 2) trMax
  (nodes2, tr2)

/-! ## Transient driver loop (`core/TransientSimulation.cpp` lines 8-160)

Claim-relevant structure: the time-stepping loop, the output recording and
the progress-callback cancellation.  The per-step physics (boundary-condition
updates, control pipeline, airflow solve, contaminant solve and density
coupling, lines 52-142) produces the data recorded in each snapshot; it is
abstracted as a state-transition argument `physStep : t → currentDt → σ → σ`
over an arbitrary physics-state type `σ`, since none of it feeds back into
the loop control.  C++'s unbounded `while` becomes fuel recursion; the fuel
never runs out when the time step is positive (proved below). -/

/-- Result of `TransientSimulation::run` (TransientSimulation.h lines 33-36)
with the snapshot history as `(time, physics state)` pairs. -/
structure TransientResult (σ : Type) where
  completed : Bool
  history : List (ℝ × σ)

/-- Main time-stepping loop of `TransientSimulation::run`
(TransientSimulation.cpp lines 47-159): while `t < endTime - 1e-10`, truncate
the step to `min(dt, endTime - t)`, advance the physics, record a snapshot
when `t` crosses `nextOutput` (or reaches `endTime`), then invoke the
progress callback and return the partial result if it yields `false`; when
the loop condition fails, return with `completed = true`. -/
def runLoop {σ : Type} (cb : ℝ → ℝ → Bool) (physStep : ℝ → ℝ → σ → σ)
    (endTime dt interval : ℝ) :
    ℕ → ℝ → ℝ → σ → List (ℝ × σ) → TransientResult σ
  | 0, t, _, _, hist =>
      if t < endTime - 1e-10 then ⟨false, hist⟩ else ⟨true, hist⟩
  | fuel + 1, t, nextOutput, s, hist =>
      if t < endTime - 1e-10 then
        let currentDt := min dt (endTime - t)
        let s2 := physStep t currentDt s
        let t2 := t + currentDt
        let rec2 :=
          if t2 ≥ nextOutput - 1e-10 ∨ t2 ≥ endTime - 1e-10 then
            (hist ++ [(t2, s2)], nextOutput + interval)
          else (hist, nextOutput)
        if cb t2 endTime = false then ⟨false, rec2.1⟩
        else runLoop cb physStep endTime dt interval fuel t2 rec2.2 s2 rec2.1
      else ⟨true, hist⟩

/-- `TransientSimulation::run` entry (TransientSimulation.cpp lines 31-46):
start at `startTime`, record the initial snapshot, advance `nextOutput` by
one interval, then enter the loop.  `initState` is the physics state after
the initial airflow solve. -/
def TransientSimulation.run {σ : Type} (cb : ℝ → ℝ → Bool)
    (physStep : ℝ → ℝ → σ → σ) (startTime endTime dt interval : ℝ)
    (initState : σ) (fuel : ℕ) : TransientResult σ :=
  runLoop cb physStep endTime dt interval fuel startTime
    (startTime + interval) initState [(startTime, initState)]

/-- Transcription of the claim's trigger "the progress callback returns
false at some step": starting from time `t`, the loop condition holds and
either the callback already answers `false` when queried at this step's
advanced time `t + min(dt, endTime - t)` (the query time of
TransientSimulation.cpp line 152), or it answers `true` there and returns
`false` at some later step of the run.  The step progression mirrors
`runLoop`; the fuel bound matches the run's. -/
def cancelsAt (cb : ℝ → ℝ → Bool) (endTime dt : ℝ) : ℕ → ℝ → Prop
  | 0, _ => False
  | fuel + 1, t =>
      t < endTime - 1e-10 ∧
      (cb (t + min dt (endTime - t)) endTime = false ∨
        (cb (t + min dt (endTime - t)) endTime = true ∧
          cancelsAt cb endTime dt fuel (t + min dt (endTime - t))))

/-- Deadband-adjusted error of `Controller::update` (Controller.h lines
44-49): `e = setpoint - sensor`, replaced by 0 when `|e| < deadband`. -/
def ctrlError (c : Controller) (sensorValue : ℝ) : ℝ :=
  if |c.setpoint - sensorValue| < c.deadband then 0 else c.setpoint - sensorValue

/-- Concrete two-node network — an ambient node and a phantom zone of
volume 0, both at density 1.2 kg/m³ — used to exercise the contaminant
assembly in proofs. -/
def phantomNet : Network :=
  { nodes := [{ type := NodeType.Ambient, density := 1.2 },
      { type := NodeType.Phantom, volume := 0, density := 1.2 }], links := [] }

/-- Concrete controller configuration (setpoint 1, `Kp = Ki = 1`, no
deadband, output range `[0,1]`, zero initial state) used to exercise
`Controller::update` in proofs. -/
def testController : Controller :=
  { setpoint := 1, Kp := 1, Ki := 1, deadband := 0, outputMin := 0,
    outputMax := 1, output := 0, prevError := 0, integral := 0 }

/-!
# Theorems
-/

lemma DP_MIN_pos : (0 : ℝ) < DP_MIN := by norm_num [DP_MIN]

lemma rpow_sub_one_mul_self {n : ℝ} : DP_MIN ^ (n - 1) * DP_MIN = DP_MIN ^ n := by
  have h1 : DP_MIN ^ (n - 1) * DP_MIN ^ (1 : ℝ) = DP_MIN ^ (n - 1 + 1) :=
    (Real.rpow_add DP_MIN_pos _ _).symm
  rw [Real.rpow_one] at h1
  rw [h1, sub_add_cancel]

/-- C1 counterexample: the linear-curve fan with `maxFlow = 1 m³/s`,
`shutoffPressure = 1 Pa`, evaluated at `ΔP = 0` and density `ρ = 1 > 0`,
returns the derivative `-1 < 0`; the claim that every variant returns a
non-negative derivative is false. -/
theorem fan_derivative_negative_counterexample :
    (({ maxFlow := 1, shutoffPressure := 1, usePolynomial := false,
        coeffs := [] } : Fan).calculate 0 1).derivative < 0 := by
  simp only [Fan.calculate]
  norm_num

/-- C1 (amended): `PowerLawOrifice`, `CheckValve` and `BackdraftDamper`
return a non-negative derivative for every `ΔP` and every non-negative
density (their coefficients and exponents being non-negative, as the
constructors enforce), but the `Fan` element violates the convention: every
linear-curve fan returns a strictly negative derivative at every positive
density. -/
theorem calculate_derivative_nonneg_except_fan :
    (∀ (e : PowerLawOrifice) (dP ρ : ℝ), 0 ≤ ρ → 0 ≤ e.C → 0 ≤ e.n →
      0 ≤ (e.calculate dP ρ).derivative) ∧
    (∀ (e : CheckValve) (dP ρ : ℝ), 0 ≤ ρ → 0 ≤ e.C → 0 ≤ e.n →
      0 ≤ (e.calculate dP ρ).derivative) ∧
    (∀ (e : BackdraftDamper) (dP ρ : ℝ), 0 ≤ ρ → 0 ≤ e.Cf → 0 ≤ e.nf →
      0 ≤ e.Cr → 0 ≤ e.nr → 0 ≤ (e.calculate dP ρ).derivative) ∧
    (∀ (f : Fan) (dP ρ : ℝ), f.usePolynomial = false → 0 < f.maxFlow →
      0 < f.shutoffPressure → 0 < ρ → (f.calculate dP ρ).derivative < 0) := by
  refine ⟨?_, ?_, ?_, ?_⟩
  · intro e dP ρ hρ hC hn
    unfold PowerLawOrifice.calculate PowerLawOrifice.linArm PowerLawOrifice.powArm
      PowerLawOrifice.linearSlope
    split
    · exact mul_nonneg hρ (mul_nonneg hC (Real.rpow_nonneg DP_MIN_pos.le _))
    · exact mul_nonneg (mul_nonneg (mul_nonneg hρ hn) hC)
        (Real.rpow_nonneg (abs_nonneg _) _)
  · intro e dP ρ hρ hC hn
    unfold CheckValve.calculate CheckValve.linArm CheckValve.powArm CheckValve.linearSlope
    split
    · exact mul_nonneg hρ (by norm_num)
    · split
      · have h1 : (0 : ℝ) ≤ DP_MIN ^ e.n := Real.rpow_nonneg DP_MIN_pos.le _
        have h2 : (0 : ℝ) ≤ 1.2 * e.C * DP_MIN ^ e.n :=
          mul_nonneg (mul_nonneg (by norm_num) hC) h1
        exact div_nonneg h2 DP_MIN_pos.le
      · rename_i h1 h2
        push_neg at h1
        exact mul_nonneg (mul_nonneg (mul_nonneg hρ hn) hC)
          (Real.rpow_nonneg h1.le _)
  · intro e dP ρ hρ hCf hnf hCr hnr
    unfold BackdraftDamper.calculate BackdraftDamper.linArm BackdraftDamper.powArm
      BackdraftDamper.linearSlopeFwd BackdraftDamper.linearSlopeRev
    have hf : (0 : ℝ) ≤ e.Cf * DP_MIN ^ (e.nf - 1) :=
      mul_nonneg hCf (Real.rpow_nonneg DP_MIN_pos.le _)
    have hr : (0 : ℝ) ≤ e.Cr * DP_MIN ^ (e.nr - 1) :=
      mul_nonneg hCr (Real.rpow_nonneg DP_MIN_pos.le _)
    split
    · have := add_nonneg hf hr
      positivity
    · split
      · exact mul_nonneg (mul_nonneg (mul_nonneg hρ hnf) hCf)
          (Real.rpow_nonneg (abs_nonneg _) _)
      · exact mul_nonneg (mul_nonneg (mul_nonneg hρ hnr) hCr)
          (Real.rpow_nonneg (abs_nonneg _) _)
  · intro f dP ρ hpoly hmax hshut hρ
    have htiny : -ρ * 1e-10 < 0 := by
      rw [neg_mul, neg_lt_zero]
      exact mul_pos hρ (by norm_num)
    have hdiv : ρ * (-f.maxFlow / f.shutoffPressure) < 0 := by
      rw [neg_div, mul_neg, neg_lt_zero]
      exact mul_pos hρ (div_pos hmax hshut)
    unfold Fan.calculate
    rw [hpoly]
    simp only [Bool.false_eq_true, if_false]
    split
    · split
      · exact htiny
      · exact hdiv
    · split
      · exact htiny
      · exact hdiv

/-- C1 witness: the amended theorem instantiated at a concrete orifice
(`C = 1`, `n = 0.65`, `ΔP = 5`, `ρ = 1.2`) and a concrete linear-curve fan
(`maxFlow = 1`, `shutoff = 1`, `ΔP = 0`, `ρ = 1`), discharging the
parameter-range hypotheses numerically. -/
theorem calculate_derivative_nonneg_except_fan_witness :
    (0 : ℝ) ≤ 1.2 ∧ (0 : ℝ) ≤ 1 ∧ (0 : ℝ) ≤ 0.65 ∧
      0 ≤ (({ C := 1, n := 0.65 } : PowerLawOrifice).calculate 5 1.2).derivative ∧
      (({ maxFlow := 1, shutoffPressure := 1, usePolynomial := false,
          coeffs := [] } : Fan).calculate 0 1).derivative < 0 :=
  ⟨by norm_num, by norm_num, by norm_num,
    calculate_derivative_nonneg_except_fan.1 { C := 1, n := 0.65 } 5 1.2
      (by norm_num) (by norm_num) (by norm_num),
    calculate_derivative_nonneg_except_fan.2.2.2
      { maxFlow := 1, shutoffPressure := 1, usePolynomial := false, coeffs := [] }
      0 1 rfl (by norm_num) (by norm_num) (by norm_num)⟩

/-- C4 counterexample: for the `CheckValve` with `C = 1`, `n = 1` at density
`ρ = 1`, the linear branch evaluated at `ΔP = DP_MIN` gives
`1.2·DP_MIN` (the constructor bakes in the reference density 1.2) while the
power-law branch gives `1·DP_MIN`; the flow is not continuous at the
linearisation boundary. -/
theorem checkvalve_boundary_discontinuous :
    (({ C := 1, n := 1 } : CheckValve).linArm DP_MIN 1).massFlow ≠
      (({ C := 1, n := 1 } : CheckValve).powArm DP_MIN 1).massFlow := by
  simp only [CheckValve.linArm, CheckValve.powArm, CheckValve.linearSlope,
    Real.rpow_one, DP_MIN]
  norm_num

/-- C4 (amended): at `|ΔP| = DP_MIN` the `PowerLawOrifice` linear branch
matches the power-law branch at every density (both signs); the `CheckValve`
linear branch matches only at the reference density `ρ = 1.2` baked into its
slope; and the `BackdraftDamper` linear branch meets the average of the
forward and reverse branch values, so it is continuous only when those
coincide. -/
theorem linearisation_boundary_continuity :
    (∀ (e : PowerLawOrifice) (ρ : ℝ),
      (e.linArm DP_MIN ρ).massFlow = (e.powArm DP_MIN ρ).massFlow ∧
      (e.linArm (-DP_MIN) ρ).massFlow = (e.powArm (-DP_MIN) ρ).massFlow) ∧
    (∀ e : CheckValve,
      (e.linArm DP_MIN 1.2).massFlow = (e.powArm DP_MIN 1.2).massFlow) ∧
    (∀ (e : BackdraftDamper) (ρ : ℝ),
      2 * (e.linArm DP_MIN ρ).massFlow =
        (e.powArm DP_MIN ρ).massFlow - (e.powArm (-DP_MIN) ρ).massFlow) := by
  have habs : |DP_MIN| = DP_MIN := abs_of_pos DP_MIN_pos
  have habsneg : |(-DP_MIN)| = DP_MIN := by rw [abs_neg, habs]
  have hge : DP_MIN ≥ 0 := DP_MIN_pos.le
  have hnge : ¬(-DP_MIN ≥ 0) := by
    simp only [ge_iff_le, not_le, Left.neg_neg_iff]
    exact DP_MIN_pos
  refine ⟨?_, ?_, ?_⟩
  · intro e ρ
    constructor
    · simp only [PowerLawOrifice.linArm, PowerLawOrifice.powArm,
        PowerLawOrifice.linearSlope, habs, if_pos hge]
      rw [show ρ * (e.C * DP_MIN ^ (e.n - 1)) * DP_MIN =
        ρ * (e.C * (DP_MIN ^ (e.n - 1) * DP_MIN)) by ring, rpow_sub_one_mul_self]
      ring
    · simp only [PowerLawOrifice.linArm, PowerLawOrifice.powArm,
        PowerLawOrifice.linearSlope, habsneg, if_neg hnge]
      rw [show ρ * (e.C * DP_MIN ^ (e.n - 1)) * -DP_MIN =
        -(ρ * (e.C * (DP_MIN ^ (e.n - 1) * DP_MIN))) by ring, rpow_sub_one_mul_self]
      ring
  · intro e
    simp only [CheckValve.linArm, CheckValve.powArm, CheckValve.linearSlope]
    rw [div_mul_cancel₀ _ (ne_of_gt DP_MIN_pos)]
  · intro e ρ
    simp only [BackdraftDamper.linArm, BackdraftDamper.powArm,
      BackdraftDamper.linearSlopeFwd, BackdraftDamper.linearSlopeRev, habs, habsneg,
      if_pos hge, if_neg hnge]
    have h1 : e.Cf * DP_MIN ^ (e.nf - 1) * DP_MIN = e.Cf * DP_MIN ^ e.nf := by
      rw [mul_assoc, rpow_sub_one_mul_self]
    have h2 : e.Cr * DP_MIN ^ (e.nr - 1) * DP_MIN = e.Cr * DP_MIN ^ e.nr := by
      rw [mul_assoc, rpow_sub_one_mul_self]
    rw [← h1, ← h2]
    ring

/-- C2: the source loop of `solveSpecies` adds `G₀ · schedule(t+dt)` to the
right-hand side for every source regardless of its type.  For the
exponential-decay source `makeDecay(zone 1, species 0, G₀ = 10⁻⁴ kg/s,
τ_c = 600 s, t₀ = 0, mult = 1)` at `t = 0`, `dt = 60` the code adds `10⁻⁴`
while the documented semantics (`Species.h` line 25 and spec §4.4) require
`10⁻⁴·exp(-1/10)`; the two generation terms differ. -/
theorem decay_source_treated_as_constant :
    sourceGenerationTerm [] (Source.makeDecay 1 0 1e-4 600 0 1) 0 60 = 1e-4 ∧
    specSourceGenerationTerm [] (Source.makeDecay 1 0 1e-4 600 0 1) 0 60 =
      1e-4 * Real.exp (-(1 / 10)) ∧
    sourceGenerationTerm [] (Source.makeDecay 1 0 1e-4 600 0 1) 0 60 ≠
      specSourceGenerationTerm [] (Source.makeDecay 1 0 1e-4 600 0 1) 0 60 := by
  have hcode : sourceGenerationTerm [] (Source.makeDecay 1 0 1e-4 600 0 1) 0 60
      = 1e-4 := by
    simp only [sourceGenerationTerm, Source.makeDecay, getScheduleValue]
    norm_num
  have hspec : specSourceGenerationTerm [] (Source.makeDecay 1 0 1e-4 600 0 1) 0 60
      = 1e-4 * Real.exp (-(1 / 10)) := by
    simp only [specSourceGenerationTerm, Source.makeDecay]
    norm_num
  refine ⟨hcode, hspec, ?_⟩
  rw [hcode, hspec]
  have hlt : Real.exp (-(1 / 10)) < 1 := Real.exp_lt_one_iff.mpr (by norm_num)
  intro h
  have h2 : (1e-4 : ℝ) * 1 = 1e-4 * Real.exp (-(1 / 10)) := by
    rw [mul_one]; exact h
  have h3 : Real.exp (-(1 / 10)) = 1 := (mul_left_cancel₀ (by norm_num) h2).symm
  rw [h3] at hlt
  exact lt_irrefl 1 hlt

/-- C7: `Controller::update` computes the deadband-adjusted error `e`,
integrates `e·dt`, clamps `Kp·e + Ki·integral` to `[outputMin, outputMax]`,
and backs the integration out exactly when the clamp altered the raw value;
the returned output equals the stored output. -/
theorem controller_update_spec (c : Controller) (v dt : ℝ)
    (h : c.outputMin ≤ c.outputMax) :
    (c.update v dt).2 =
      max c.outputMin
        (min (c.Kp * ctrlError c v + c.Ki * (c.integral + ctrlError c v * dt))
          c.outputMax) ∧
    (c.update v dt).1.output = (c.update v dt).2 ∧
    (c.update v dt).1.prevError = ctrlError c v ∧
    (c.update v dt).1.integral =
      (if c.Kp * ctrlError c v + c.Ki * (c.integral + ctrlError c v * dt) < c.outputMin
          ∨ c.outputMax < c.Kp * ctrlError c v + c.Ki * (c.integral + ctrlError c v * dt)
        then c.integral
        else c.integral + ctrlError c v * dt) := by
  set e := ctrlError c v with he
  have hupd : c.update v dt =
      ({ c with
          output := stdClamp (c.Kp * e + c.Ki * (c.integral + e * dt))
            c.outputMin c.outputMax,
          prevError := e,
          integral :=
            if stdClamp (c.Kp * e + c.Ki * (c.integral + e * dt))
                c.outputMin c.outputMax ≠ c.Kp * e + c.Ki * (c.integral + e * dt)
            then c.integral + e * dt - e * dt
            else c.integral + e * dt },
        stdClamp (c.Kp * e + c.Ki * (c.integral + e * dt)) c.outputMin c.outputMax) := by
    simp only [Controller.update, ctrlError, he]
  set raw := c.Kp * e + c.Ki * (c.integral + e * dt) with hraw
  have hclamp : stdClamp raw c.outputMin c.outputMax = max c.outputMin (min raw c.outputMax) := by
    unfold stdClamp
    rcases lt_trichotomy raw c.outputMin with h1 | h1 | h1
    · rw [if_pos h1, min_eq_left (le_trans h1.le h), max_eq_left h1.le]
    · rw [if_neg (by rw [h1]; exact lt_irrefl _), h1, min_eq_left h]
      by_cases h2 : c.outputMax < c.outputMin
      · exact absurd h (not_le.mpr h2)
      · rw [if_neg h2, max_self]
    · rw [if_neg (not_lt.mpr h1.le)]
      by_cases h2 : c.outputMax < raw
      · rw [if_pos h2, min_eq_right h2.le, max_eq_right h]
      · rw [if_neg h2, min_eq_left (not_lt.mp h2), max_eq_right h1.le]
  have hsat : (stdClamp raw c.outputMin c.outputMax ≠ raw) ↔
      (raw < c.outputMin ∨ c.outputMax < raw) := by
    unfold stdClamp
    constructor
    · intro hne
      by_cases h1 : raw < c.outputMin
      · exact Or.inl h1
      · rw [if_neg h1] at hne
        by_cases h2 : c.outputMax < raw
        · exact Or.inr h2
        · rw [if_neg h2] at hne
          exact absurd rfl hne
    · intro hor
      rcases hor with h1 | h1
      · rw [if_pos h1]
        exact ne_of_gt h1
      · rw [if_neg (not_lt.mpr (le_trans h h1.le)), if_pos h1]
        exact ne_of_lt h1
  rw [hupd]
  refine ⟨hclamp, rfl, rfl, ?_⟩
  by_cases hs : stdClamp raw c.outputMin c.outputMax ≠ raw
  · rw [if_pos hs, if_pos (hsat.mp hs)]
    ring
  · rw [if_neg hs, if_neg (fun hor => hs (hsat.mpr hor))]

/-- C7 witness: `testController` (bounds `[0,1]`) with sensor value 0 and
`dt = 1` — the raw output `1·1 + 1·1 = 2` saturates, so the output is clamped
to 1 and the step's integration is backed out. -/
theorem controller_update_spec_witness :
    testController.outputMin ≤ testController.outputMax ∧
    (testController.update 0 1).2 =
      max testController.outputMin
        (min (testController.Kp * ctrlError testController 0 +
            testController.Ki *
              (testController.integral + ctrlError testController 0 * 1))
          testController.outputMax) :=
  ⟨by norm_num [testController],
    (controller_update_spec testController 0 1 (by norm_num [testController])).1⟩

/-- C10: a negative schedule id, an unregistered schedule id, and a
registered schedule whose point list is empty all yield the multiplier 1
(the source is treated as always on). -/
theorem schedule_fallback_multiplier_one (schedules : List (ℤ × Schedule))
    (id : ℤ) (t : ℝ)
    (h : id < 0 ∨ lookupSchedule schedules id = none ∨
      ∃ s, lookupSchedule schedules id = some s ∧ s.points = []) :
    getScheduleValue schedules id t = 1 := by
  unfold getScheduleValue
  rcases h with h | h | ⟨s, hs, hempty⟩
  · rw [if_pos h]
  · by_cases h0 : id < 0
    · rw [if_pos h0]
    · rw [if_neg h0, h]
  · by_cases h0 : id < 0
    · rw [if_pos h0]
    · rw [if_neg h0, hs]
      simp [Schedule.getValue, hempty]

/-- C10 witness: the theorem applied to id `-1` over the empty schedule map,
and to the schedule id `7` registered with an empty point list. -/
theorem schedule_fallback_multiplier_one_witness :
    ((-1 : ℤ) < 0 ∨ lookupSchedule [] (-1) = none ∨
      ∃ s, lookupSchedule [] (-1) = some s ∧ s.points = []) ∧
    getScheduleValue [] (-1) 0 = 1 ∧
    getScheduleValue [(7, ⟨[]⟩)] 7 5 = 1 :=
  ⟨Or.inl (by decide), schedule_fallback_multiplier_one [] (-1) 0 (Or.inl (by decide)),
    schedule_fallback_multiplier_one [(7, ⟨[]⟩)] 7 5
      (Or.inr (Or.inr ⟨⟨[]⟩, by simp [lookupSchedule], rfl⟩))⟩

lemma updatePressuresScaled_getD (um : ℕ → ℤ) (dP : List ℝ) (scale : ℝ) :
    ∀ (nodes : List Node) (i0 k : ℕ), k < nodes.length →
      (updatePressuresScaled um dP scale nodes i0).getD k default =
        (if 0 ≤ um (i0 + k) then
          { nodes.getD k default with
            pressure := (nodes.getD k default).pressure +
              scale * dP.getD (um (i0 + k)).toNat 0 }
        else nodes.getD k default) := by
  intro nodes
  induction nodes with
  | nil => intro i0 k hk; simp at hk
  | cons n rest ih =>
      intro i0 k hk
      cases k with
      | zero => simp [updatePressuresScaled]
      | succ k2 =>
          have hk2 : k2 < rest.length := by simpa using hk
          have := ih (i0 + 1) k2 hk2
          simp only [updatePressuresScaled, List.getD_cons_succ]
          rw [this, Nat.add_assoc, Nat.add_comm 1 k2]

/-- C6: `Solver::applyUpdateTR` scales the Newton step by
`s = min(1, R_tr/‖δp‖)` and applies `p ← p + s·δp(eq)` to each unknown node
(known-pressure nodes are untouched); the radius becomes
`max(R_tr/2, R_min)` when `‖δp‖ > R_tr` and `min(2·R_tr, R_max)` otherwise. -/
theorem applyUpdateTR_spec (nodes : List Node) (um : ℕ → ℤ) (dP : List ℝ)
    (tr trMin trMax : ℝ) (h2 : 0 < vecNorm dP) :
    (applyUpdateTR nodes um dP tr trMin trMax).2 =
      (if tr < vecNorm dP then max (tr / 2) trMin else min (2 * tr) trMax) ∧
    ∀ k, k < nodes.length →
      ((applyUpdateTR nodes um dP tr trMin trMax).1.getD k default).pressure =
        (nodes.getD k default).pressure +
          (if 0 ≤ um k then min 1 (tr / vecNorm dP) * dP.getD (um k).toNat 0
            else 0) := by
  have hscale : (if vecNorm dP > tr then tr / vecNorm dP else 1) =
      min 1 (tr / vecNorm dP) := by
    by_cases hgt : vecNorm dP > tr
    · rw [if_pos hgt, min_eq_right ((div_lt_one h2).mpr hgt).le]
    · rw [if_neg hgt, min_eq_left ((one_le_div h2).mpr (not_lt.mp hgt))]
  have hbranch : ((if vecNorm dP > tr then tr / vecNorm dP else 1) < 1) ↔
      tr < vecNorm dP := by
    by_cases hgt : vecNorm dP > tr
    · rw [if_pos hgt]
      exact ⟨fun _ => hgt, fun _ => (div_lt_one h2).mpr hgt⟩
    · rw [if_neg hgt]
      exact ⟨fun hlt => absurd hlt (lt_irrefl 1), fun hlt => absurd hlt hgt⟩
  constructor
  · show (if (if vecNorm dP > tr then tr / vecNorm dP else 1) < 1 then
        max (tr * 0.5) trMin else min (tr * 2) trMax) = _
    by_cases hgt : tr < vecNorm dP
    · rw [if_pos (hbranch.mpr hgt), if_pos hgt,
        show tr * (0.5 : ℝ) = tr / 2 by ring]
    · rw [if_neg (fun hlt => hgt (hbranch.mp hlt)), if_neg hgt,
        show tr * (2 : ℝ) = 2 * tr by ring]
  · intro k hk
    show ((updatePressuresScaled um dP
        (if vecNorm dP > tr then tr / vecNorm dP else 1) nodes 0).getD k default).pressure = _
    rw [updatePressuresScaled_getD um dP _ nodes 0 k hk, Nat.zero_add]
    by_cases hum : 0 ≤ um k
    · rw [if_pos hum, if_pos hum, hscale]
    · rw [if_neg hum, if_neg hum, add_zero]

/-- C6 witness: a single unknown node with `δp = [1]` (so `‖δp‖ = 1`) and
radius `R_tr = 2 ≥ ‖δp‖`: the full step is applied and the radius expands to
`min(4, R_max)`. -/
theorem applyUpdateTR_spec_witness :
    (0 : ℝ) < vecNorm [1] ∧
    (applyUpdateTR [{ volume := 30 }] (fun _ => 0) [1] 2 0.01 100).2 =
      (if (2 : ℝ) < vecNorm [1] then max (2 / 2) 0.01 else min (2 * 2) 100) :=
  ⟨by simp [vecNorm],
    (applyUpdateTR_spec [{ volume := 30 }] (fun _ => 0) [1] 2 0.01 100
      (by simp [vecNorm])).1⟩

lemma int_toNat_eq {a : ℤ} (h : 0 ≤ a) (n : ℕ) : a.toNat = n ↔ a = (n : ℤ) := by
  omega

lemma int_cast_ne_of_neg {a : ℤ} (h : ¬0 ≤ a) (n : ℕ) : ¬a = (n : ℤ) := by
  omega

lemma setFromTriplets_append (ts1 ts2 : List (ℕ × ℕ × ℝ)) (i j : ℕ) :
    setFromTriplets (ts1 ++ ts2) i j =
      setFromTriplets ts1 i j + setFromTriplets ts2 i j := by
  unfold setFromTriplets
  rw [List.filter_append, List.map_append, List.sum_append]

lemma setFromTriplets_singleton (r c : ℕ) (v : ℝ) (i j : ℕ) :
    setFromTriplets [(r, c, v)] i j = if r = i ∧ c = j then v else 0 := by
  by_cases h : r = i ∧ c = j
  · simp [setFromTriplets, List.filter_cons, h]
  · simp [setFromTriplets, List.filter_cons, h]

lemma setFromTriplets_nil (i j : ℕ) : setFromTriplets [] i j = 0 := rfl

lemma linkTriplets_sum (um : ℕ → ℤ) (l : Link) (i j : ℕ) :
    setFromTriplets (linkTriplets um l) i j = specStampJ um l i j := by
  unfold linkTriplets specStampJ
  by_cases ha : 0 ≤ um l.nodeFrom <;> by_cases hb : 0 ≤ um l.nodeTo
  · have e1 : ∀ n : ℕ, (um l.nodeFrom).toNat = n ↔ um l.nodeFrom = (n : ℤ) :=
      int_toNat_eq ha
    have e2 : ∀ n : ℕ, (um l.nodeTo).toNat = n ↔ um l.nodeTo = (n : ℤ) :=
      int_toNat_eq hb
    simp only [ha, hb, ite_true, List.append_assoc, List.singleton_append,
      List.cons_append, List.nil_append]
    rw [show ((um l.nodeFrom).toNat, (um l.nodeFrom).toNat, -l.derivative) ::
        ((um l.nodeFrom).toNat, (um l.nodeTo).toNat, l.derivative) ::
        ((um l.nodeTo).toNat, (um l.nodeTo).toNat, -l.derivative) ::
        [((um l.nodeTo).toNat, (um l.nodeFrom).toNat, l.derivative)] =
        [((um l.nodeFrom).toNat, (um l.nodeFrom).toNat, -l.derivative)] ++
        ([((um l.nodeFrom).toNat, (um l.nodeTo).toNat, l.derivative)] ++
        ([((um l.nodeTo).toNat, (um l.nodeTo).toNat, -l.derivative)] ++
          [((um l.nodeTo).toNat, (um l.nodeFrom).toNat, l.derivative)])) from rfl]
    simp only [setFromTriplets_append, setFromTriplets_singleton, e1, e2]
    ring
  · have e1 : ∀ n : ℕ, (um l.nodeFrom).toNat = n ↔ um l.nodeFrom = (n : ℤ) :=
      int_toNat_eq ha
    simp only [ha, hb, ite_true, ite_false, List.append_nil]
    simp only [setFromTriplets_singleton, e1, int_cast_ne_of_neg hb,
      and_false, false_and, ite_false, add_zero]
  · have e2 : ∀ n : ℕ, (um l.nodeTo).toNat = n ↔ um l.nodeTo = (n : ℤ) :=
      int_toNat_eq hb
    simp only [ha, hb, ite_true, ite_false, List.nil_append, List.append_nil]
    simp only [setFromTriplets_singleton, e2, int_cast_ne_of_neg ha,
      and_false, false_and, ite_false, add_zero, zero_add]
  · simp only [ha, hb, ite_false, List.nil_append]
    simp only [setFromTriplets_nil, int_cast_ne_of_neg ha, int_cast_ne_of_neg hb,
      and_false, false_and, ite_false, add_zero]

lemma stampLink_resid (um : ℕ → ℤ) (acc : List (ℕ × ℕ × ℝ) × (ℕ → ℝ)) (l : Link)
    (i : ℕ) : (stampLink um acc l).2 i = acc.2 i + specStampR um l i := by
  unfold stampLink specStampR addVec
  by_cases ha : 0 ≤ um l.nodeFrom <;> by_cases hb : 0 ≤ um l.nodeTo
  · have e1 : (um l.nodeFrom = (i : ℤ)) ↔ (i = (um l.nodeFrom).toNat) := by omega
    have e2 : (um l.nodeTo = (i : ℤ)) ↔ (i = (um l.nodeTo).toNat) := by omega
    simp only [ha, hb, ite_true, e1, e2]
    split_ifs <;> ring
  · have e1 : (um l.nodeFrom = (i : ℤ)) ↔ (i = (um l.nodeFrom).toNat) := by omega
    have e2 : ¬(um l.nodeTo = (i : ℤ)) := int_cast_ne_of_neg hb i
    simp only [ha, hb, ite_true, ite_false, e1, e2]
    split_ifs <;> ring
  · have e1 : ¬(um l.nodeFrom = (i : ℤ)) := int_cast_ne_of_neg ha i
    have e2 : (um l.nodeTo = (i : ℤ)) ↔ (i = (um l.nodeTo).toNat) := by omega
    simp only [ha, hb, ite_true, ite_false, e1, e2]
    split_ifs <;> ring
  · have e1 : ¬(um l.nodeFrom = (i : ℤ)) := int_cast_ne_of_neg ha i
    have e2 : ¬(um l.nodeTo = (i : ℤ)) := int_cast_ne_of_neg hb i
    simp only [ha, hb, ite_false, e1, e2]
    ring

lemma assembleFold_triplets (um : ℕ → ℤ) :
    ∀ (links : List Link) (acc : List (ℕ × ℕ × ℝ) × (ℕ → ℝ)),
      (links.foldl (stampLink um) acc).1 =
        acc.1 ++ (links.map (linkTriplets um)).flatten := by
  intro links
  induction links with
  | nil => intro acc; simp
  | cons l ls ih =>
      intro acc
      rw [List.foldl_cons, ih]
      show (stampLink um acc l).1 ++ _ = _
      unfold stampLink
      simp only [List.map_cons, List.flatten_cons]
      rw [List.append_assoc]

lemma assembleFold_resid (um : ℕ → ℤ) :
    ∀ (links : List Link) (acc : List (ℕ × ℕ × ℝ) × (ℕ → ℝ)) (i : ℕ),
      (links.foldl (stampLink um) acc).2 i =
        acc.2 i + (links.map (fun l => specStampR um l i)).sum := by
  intro links
  induction links with
  | nil => intro acc i; simp
  | cons l ls ih =>
      intro acc i
      rw [List.foldl_cons, ih, stampLink_resid]
      simp only [List.map_cons, List.sum_cons]
      ring

lemma joined_triplets_sum (um : ℕ → ℤ) :
    ∀ (links : List Link) (i j : ℕ),
      setFromTriplets ((links.map (linkTriplets um)).flatten) i j =
        (links.map (fun l => specStampJ um l i j)).sum := by
  intro links
  induction links with
  | nil => intro i j; rfl
  | cons l ls ih =>
      intro i j
      simp only [List.map_cons, List.flatten_cons]
      rw [setFromTriplets_append, linkTriplets_sum, ih, List.sum_cons]

/-- C5: `Solver::assembleSystem` produces exactly the summed link stamps of
the spec: `J(i,j)` is the sum over all links of the stamp
(`-d` on `(a,a)` and `(b,b)`, `+d` on `(a,b)` and `(b,a)`, each guarded by
the equation index being defined), and `R(i)` the sum of `-ṁ` at `a` and
`+ṁ` at `b`; repeated contributions at the same entry are summed, never
overwritten. -/
theorem assembleSystem_is_summed_stamps (um : ℕ → ℤ) (links : List Link) :
    (∀ i j, (assembleSystem um links).1 i j =
      (links.map (fun l => specStampJ um l i j)).sum) ∧
    (∀ i, (assembleSystem um links).2 i =
      (links.map (fun l => specStampR um l i)).sum) := by
  constructor
  · intro i j
    show setFromTriplets (links.foldl (stampLink um) ([], fun _ => 0)).1 i j = _
    rw [assembleFold_triplets, List.nil_append, joined_triplets_sum]
  · intro i
    show (links.foldl (stampLink um) ([], fun _ => 0)).2 i = _
    rw [assembleFold_resid]
    simp

lemma buildUnknownMap_nonneg :
    ∀ (nodes : List Node) (c : ℤ), 0 ≤ c → ∀ i, i < nodes.length →
      ¬(nodes.getD i default).isKnownPressure →
      0 ≤ (buildUnknownMap nodes c).getD i (-1) := by
  intro nodes
  induction nodes with
  | nil => intro c hc i hi; simp at hi
  | cons n rest ih =>
      intro c hc i hi hamb
      cases i with
      | zero =>
          simp only [List.getD_cons_zero] at hamb
          simp only [buildUnknownMap, if_neg hamb, List.getD_cons_zero]
          exact hc
      | succ i2 =>
          have hi2 : i2 < rest.length := by simpa using hi
          have hamb2 : ¬(rest.getD i2 default).isKnownPressure := by
            simpa using hamb
          unfold buildUnknownMap
          by_cases ha : n.isKnownPressure
          · rw [if_pos ha, List.getD_cons_succ]
            exact ih c hc i2 hi2 hamb2
          · rw [if_neg ha, List.getD_cons_succ]
            exact ih (c + 1) (by omega) i2 hi2 hamb2

lemma unknownMapFn_nonneg (nodes : List Node) (i : ℕ) (hi : i < nodes.length)
    (hamb : ¬(nodes.getD i default).isKnownPressure) :
    0 ≤ unknownMapFn nodes i :=
  buildUnknownMap_nonneg nodes 0 le_rfl i hi hamb

lemma countUnknown_ne_zero :
    ∀ (nodes : List Node) (i : ℕ), i < nodes.length →
      ¬(nodes.getD i default).isKnownPressure → countUnknown nodes ≠ 0 := by
  intro nodes
  induction nodes with
  | nil => intro i hi; simp at hi
  | cons n rest ih =>
      intro i hi hamb
      cases i with
      | zero =>
          simp only [List.getD_cons_zero] at hamb
          simp only [countUnknown, if_neg hamb]
          omega
      | succ i2 =>
          have hi2 : i2 < rest.length := by simpa using hi
          have hamb2 : ¬(rest.getD i2 default).isKnownPressure := by simpa using hamb
          have := ih i2 hi2 hamb2
          simp only [countUnknown]
          omega

lemma solveSpecies_other_entries (net : Network) (species : List Species)
    (sources : List Source) (schedules : List (ℤ × Schedule))
    (linSolve : (ℕ → ℕ → ℝ) → (ℕ → ℝ) → (ℕ → ℝ)) (C : ℕ → ℕ → ℝ)
    (specIdx : ℕ) (t dt : ℝ) (i k : ℕ) (hk : k ≠ specIdx) :
    solveSpecies net species sources schedules linSolve C specIdx t dt i k = C i k := by
  unfold solveSpecies
  by_cases h0 : countUnknown net.nodes = 0
  · rw [if_pos h0]
  · rw [if_neg h0]
    exact if_neg (fun hcond => hk hcond.2.1)

lemma solveSpecies_own_nonneg (net : Network) (species : List Species)
    (sources : List Source) (schedules : List (ℤ × Schedule))
    (linSolve : (ℕ → ℕ → ℝ) → (ℕ → ℝ) → (ℕ → ℝ)) (C : ℕ → ℕ → ℝ)
    (specIdx : ℕ) (t dt : ℝ) (i : ℕ) (hi : i < net.nodes.length)
    (hamb : ¬(net.node i).isKnownPressure) :
    0 ≤ solveSpecies net species sources schedules linSolve C specIdx t dt i specIdx := by
  unfold solveSpecies
  rw [if_neg (countUnknown_ne_zero net.nodes i hi hamb)]
  rw [if_pos ⟨hi, rfl, unknownMapFn_nonneg net.nodes i hi hamb⟩]
  exact le_max_left 0 _

lemma speciesFold_preserve (net : Network) (species : List Species)
    (sources : List Source) (schedules : List (ℤ × Schedule))
    (linSolve : (ℕ → ℕ → ℝ) → (ℕ → ℝ) → (ℕ → ℝ)) (t dt : ℝ) :
    ∀ (L : List ℕ) (C0 : ℕ → ℕ → ℝ) (i k : ℕ), k ∉ L →
      (L.foldl (fun Cacc k2 =>
        solveSpecies net species sources schedules linSolve Cacc k2 t dt) C0) i k
        = C0 i k := by
  intro L
  induction L with
  | nil => intro C0 i k _; rfl
  | cons k0 rest ih =>
      intro C0 i k hk
      rw [List.foldl_cons, ih _ i k (fun hm => hk (List.mem_cons_of_mem k0 hm))]
      exact solveSpecies_other_entries net species sources schedules linSolve C0
        k0 t dt i k (fun he => hk (he ▸ List.mem_cons_self k0 rest))

lemma speciesFold_nonneg (net : Network) (species : List Species)
    (sources : List Source) (schedules : List (ℤ × Schedule))
    (linSolve : (ℕ → ℕ → ℝ) → (ℕ → ℝ) → (ℕ → ℝ)) (t dt : ℝ) :
    ∀ (L : List ℕ), L.Nodup → ∀ (C0 : ℕ → ℕ → ℝ) (i k : ℕ),
      i < net.nodes.length → ¬(net.node i).isKnownPressure → k ∈ L →
      0 ≤ (L.foldl (fun Cacc k2 =>
        solveSpecies net species sources schedules linSolve Cacc k2 t dt) C0) i k := by
  intro L
  induction L with
  | nil => intro _ C0 i k _ _ hk; simp at hk
  | cons k0 rest ih =>
      intro hnd C0 i k hi hamb hk
      rw [List.nodup_cons] at hnd
      rw [List.foldl_cons]
      rcases List.mem_cons.mp hk with rfl | hk2
      · rw [speciesFold_preserve net species sources schedules linSolve t dt rest _
          i k hnd.1]
        exact solveSpecies_own_nonneg net species sources schedules linSolve C0
          k t dt i hi hamb
      · exact ih hnd.2 _ i k hi hamb hk2

/-- C3: after `ContaminantSolver::step` every in-range concentration is
non-negative (the solved values are clamped at zero, ambient zones are reset
to the outdoor concentrations, assumed non-negative), and every ambient
zone's concentration of each species equals that species' `outdoorConc`.
The statement holds for every linear-solver result `linSolve` and every
prior state `C`. -/
theorem step_nonneg_and_ambient_reset (net : Network) (species : List Species)
    (sources : List Source) (schedules : List (ℤ × Schedule))
    (linSolve : (ℕ → ℕ → ℝ) → (ℕ → ℝ) → (ℕ → ℝ)) (C : ℕ → ℕ → ℝ) (t dt : ℝ)
    (hout : ∀ sp ∈ species, 0 ≤ sp.outdoorConc) :
    (∀ i k, i < net.nodes.length → k < species.length →
      0 ≤ ContaminantSolver.step net species sources schedules linSolve C t dt i k) ∧
    (∀ i k, i < net.nodes.length → (net.node i).isKnownPressure →
      k < species.length →
      ContaminantSolver.step net species sources schedules linSolve C t dt i k =
        (species.getD k default).outdoorConc) := by
  have houtk : ∀ k, k < species.length → 0 ≤ (species.getD k default).outdoorConc := by
    intro k hk
    rw [List.getD_eq_getElem species default hk]
    exact hout _ (List.getElem_mem hk)
  unfold ContaminantSolver.step
  by_cases hs : species.length = 0
  · rw [if_pos hs]
    exact ⟨fun i k _ hk => absurd hk (by omega),
      fun i k _ _ hk => absurd hk (by omega)⟩
  · rw [if_neg hs]
    constructor
    · intro i k hi hk
      by_cases hamb : (net.node i).isKnownPressure
      · rw [if_pos ⟨hi, hamb, hk⟩]
        exact houtk k hk
      · rw [if_neg (fun hcond => hamb hcond.2.1)]
        exact speciesFold_nonneg net species sources schedules linSolve t dt
          (List.range species.length) (List.nodup_range species.length) C i k hi hamb
          (List.mem_range.mpr hk)
    · intro i k hi hamb hk
      rw [if_pos ⟨hi, hamb, hk⟩]

/-- C3 witness: a two-zone network (ambient + room), one species with
outdoor concentration 0, and the adversarial linear solver that always
returns `-5`: the theorem applies, so the clamped state is non-negative and
the ambient zone is reset. -/
theorem step_nonneg_and_ambient_reset_witness :
    (∀ sp ∈ [({ outdoorConc := 0 } : Species)], 0 ≤ sp.outdoorConc) ∧
    (∀ i k, i < ({ nodes := [{ type := NodeType.Ambient, density := 1 },
          { volume := 30, density := 1 }], links := [] } : Network).nodes.length →
      k < [({ outdoorConc := 0 } : Species)].length →
      0 ≤ ContaminantSolver.step
        { nodes := [{ type := NodeType.Ambient, density := 1 },
            { volume := 30, density := 1 }], links := [] }
        [{ outdoorConc := 0 }] [] [] (fun _ _ => fun _ => -5)
        (fun _ _ => 0) 0 60 i k) :=
  ⟨by intro sp hsp; simp only [List.mem_singleton] at hsp; rw [hsp],
    (step_nonneg_and_ambient_reset
      { nodes := [{ type := NodeType.Ambient, density := 1 },
          { volume := 30, density := 1 }], links := [] }
      [{ outdoorConc := 0 }] [] [] (fun _ _ => fun _ => -5) (fun _ _ => 0) 0 60
      (by intro sp hsp; simp only [List.mem_singleton] at hsp; rw [hsp])).1⟩

lemma effVolume_pos (n : Node) : 0 < effVolume n := by
  unfold effVolume
  by_cases h : n.volume ≤ 0
  · rw [if_pos h]; norm_num
  · rw [if_neg h]; exact lt_of_not_le h

lemma addMat_diag_ge {x : ℝ} (h : 0 ≤ x) (A : ℕ → ℕ → ℝ) (r c d : ℕ) :
    A d d ≤ addMat A r c x d d := by
  unfold addMat
  by_cases hc : d = r ∧ d = c
  · rw [if_pos hc]; linarith
  · rw [if_neg hc]

lemma pair_sub_diag_ge {Q : ℝ} (h : 0 ≤ Q) (A : ℕ → ℕ → ℝ) (c r d : ℕ) :
    A d d ≤ addMat (addMat A c c Q) r c (-Q) d d := by
  unfold addMat
  by_cases h1 : d = r ∧ d = c
  · rw [if_pos h1, if_pos ⟨h1.2, h1.2⟩]
    linarith
  · rw [if_neg h1]
    by_cases h2 : d = c ∧ d = c
    · rw [if_pos h2]; linarith
    · rw [if_neg h2]

lemma node_density_nonneg (net : Network)
    (hρ : ∀ n ∈ net.nodes, 0 < n.density) (idx : ℕ) :
    0 ≤ (net.node idx).density := by
  unfold Network.node
  by_cases h : idx < net.nodes.length
  · rw [List.getD_eq_getElem net.nodes default h]
    exact (hρ _ (List.getElem_mem h)).le
  · rw [List.getD_eq_default net.nodes default (le_of_not_lt h)]
    norm_num [default]

lemma node_volume_nonneg (net : Network)
    (hV : ∀ n ∈ net.nodes, 0 ≤ n.volume) (idx : ℕ) :
    0 ≤ (net.node idx).volume := by
  unfold Network.node
  by_cases h : idx < net.nodes.length
  · rw [List.getD_eq_getElem net.nodes default h]
    exact hV _ (List.getElem_mem h)
  · rw [List.getD_eq_default net.nodes default (le_of_not_lt h)]
    norm_num [default]

lemma diagLoop_diag_mono (um : ℕ → ℤ) {dt : ℝ} (lam : ℝ) (Cspec : ℕ → ℝ)
    (hdt : 0 < dt) :
    ∀ (nodes : List Node) (i0 : ℕ) (Ab : (ℕ → ℕ → ℝ) × (ℕ → ℝ)) (d : ℕ),
      Ab.1 d d ≤ (diagLoop um dt lam Cspec nodes i0 Ab).1 d d := by
  intro nodes
  induction nodes with
  | nil => intro i0 Ab d; exact le_rfl
  | cons n rest ih =>
      rintro i0 ⟨A, b⟩ d
      by_cases hum : um i0 < 0
      · simp only [diagLoop, if_pos hum]
        exact ih (i0 + 1) (A, b) d
      · simp only [diagLoop, if_neg hum]
        have h1 : 0 ≤ effVolume n / dt := (div_pos (effVolume_pos n) hdt).le
        by_cases hl : lam > 0
        · rw [if_pos hl]
          refine le_trans ?_ (ih (i0 + 1) _ d)
          exact le_trans (addMat_diag_ge h1 A _ _ d)
            (addMat_diag_ge (mul_nonneg hl.le (effVolume_pos n).le) _ _ _ d)
        · rw [if_neg hl]
          refine le_trans ?_ (ih (i0 + 1) _ d)
          exact addMat_diag_ge h1 A _ _ d

lemma flowLoop_diag_mono (net : Network) (um : ℕ → ℤ) (Cspec : ℕ → ℝ)
    (hρ0 : ∀ idx, 0 ≤ (net.node idx).density) :
    ∀ (links : List Link) (Ab : (ℕ → ℕ → ℝ) × (ℕ → ℝ)) (d : ℕ),
      Ab.1 d d ≤ (flowLoop net um Cspec links Ab).1 d d := by
  intro links
  induction links with
  | nil => intro Ab d; exact le_rfl
  | cons link rest ih =>
      rintro ⟨A, b⟩ d
      by_cases hm : link.massFlow > 0
      · have hQ0 : 0 ≤ link.massFlow / (net.node link.nodeFrom).density :=
          div_nonneg hm.le (hρ0 _)
        by_cases hJ : 0 ≤ um link.nodeTo
        · by_cases hI : 0 ≤ um link.nodeFrom
          · simp only [flowLoop, if_pos hm, hI, hJ, ite_true]
            refine le_trans ?_ (ih _ d)
            exact pair_sub_diag_ge hQ0 A _ _ d
          · simp only [flowLoop, if_pos hm, hI, hJ, ite_true, ite_false]
            refine le_trans ?_ (ih _ d)
            exact le_rfl
        · by_cases hI : 0 ≤ um link.nodeFrom
          · simp only [flowLoop, if_pos hm, hI, hJ, ite_true, ite_false]
            refine le_trans ?_ (ih _ d)
            exact addMat_diag_ge hQ0 A _ _ d
          · simp only [flowLoop, if_pos hm, hI, hJ, ite_false]
            refine le_trans ?_ (ih _ d)
            exact le_rfl
      · by_cases hm2 : link.massFlow < 0
        · have hQ0 : 0 ≤ -link.massFlow / (net.node link.nodeTo).density :=
            div_nonneg (by linarith) (hρ0 _)
          by_cases hI : 0 ≤ um link.nodeFrom
          · by_cases hJ : 0 ≤ um link.nodeTo
            · simp only [flowLoop, if_neg hm, if_pos hm2, hI, hJ, ite_true]
              refine le_trans ?_ (ih _ d)
              exact pair_sub_diag_ge hQ0 A _ _ d
            · simp only [flowLoop, if_neg hm, if_pos hm2, hI, hJ, ite_true,
                ite_false]
              refine le_trans ?_ (ih _ d)
              exact le_rfl
          · by_cases hJ : 0 ≤ um link.nodeTo
            · simp only [flowLoop, if_neg hm, if_pos hm2, hI, hJ, ite_true,
                ite_false]
              refine le_trans ?_ (ih _ d)
              exact addMat_diag_ge hQ0 A _ _ d
            · simp only [flowLoop, if_neg hm, if_pos hm2, hI, hJ, ite_false]
              refine le_trans ?_ (ih _ d)
              exact le_rfl
        · simp only [flowLoop, if_neg hm, if_neg hm2]
          exact ih (A, b) d

lemma sourceLoop_diag_mono (net : Network) (um : ℕ → ℤ) (specId : ℤ)
    (schedules : List (ℤ × Schedule)) (t dt : ℝ)
    (hV0 : ∀ idx, 0 ≤ (net.node idx).volume) :
    ∀ (srcs : List Source) (Ab : (ℕ → ℕ → ℝ) × (ℕ → ℝ)) (d : ℕ),
      Ab.1 d d ≤ (sourceLoop net um specId schedules t dt srcs Ab).1 d d := by
  intro srcs
  induction srcs with
  | nil => intro Ab d; exact le_rfl
  | cons src rest ih =>
      rintro ⟨A, b⟩ d
      by_cases h1 : src.speciesId ≠ specId
      · simp only [sourceLoop, if_pos h1]
        exact ih (A, b) d
      · by_cases h2 : net.getNodeIndexById src.zoneId < 0
        · simp only [sourceLoop, if_neg h1, if_pos h2]
          exact ih (A, b) d
        · by_cases h3 : um (net.getNodeIndexById src.zoneId).toNat < 0
          · simp only [sourceLoop, if_neg h1, if_neg h2, if_pos h3]
            exact ih (A, b) d
          · by_cases h4 : src.removalRate > 0
            · simp only [sourceLoop, if_neg h1, if_neg h2, if_neg h3, if_pos h4]
              refine le_trans ?_ (ih _ d)
              exact addMat_diag_ge (mul_nonneg h4.le (hV0 _)) A _ _ d
            · simp only [sourceLoop, if_neg h1, if_neg h2, if_neg h3, if_neg h4]
              refine le_trans ?_ (ih _ d)
              exact le_rfl

lemma diagLoop_focus (um : ℕ → ℤ) {dt : ℝ} (lam : ℝ) (Cspec : ℕ → ℝ)
    (hdt : 0 < dt) :
    ∀ (nodes : List Node) (i0 : ℕ) (Ab : (ℕ → ℕ → ℝ) × (ℕ → ℝ)) (j : ℕ),
      j < nodes.length → 0 ≤ um (i0 + j) →
      (nodes.getD j default).volume ≤ 0 →
      Ab.1 (um (i0 + j)).toNat (um (i0 + j)).toNat + 1 / dt ≤
        (diagLoop um dt lam Cspec nodes i0 Ab).1
          (um (i0 + j)).toNat (um (i0 + j)).toNat := by
  intro nodes
  induction nodes with
  | nil => intro i0 Ab j hj; simp at hj
  | cons n rest ih =>
      rintro i0 ⟨A, b⟩ j hj hum hvol
      cases j with
      | zero =>
          simp only [Nat.add_zero] at hum hvol ⊢
          simp only [List.getD_cons_zero] at hvol
          simp only [diagLoop, if_neg (not_lt.mpr hum)]
          have hVi : effVolume n = 1 := by unfold effVolume; rw [if_pos hvol]
          set e := (um i0).toNat with he
          have hstep : A e e + 1 / dt ≤
              (addMat A e e (effVolume n / dt)) e e := by
            unfold addMat
            rw [if_pos ⟨rfl, rfl⟩, hVi]
          by_cases hl : lam > 0
          · rw [if_pos hl]
            refine le_trans ?_ (diagLoop_diag_mono um lam Cspec hdt rest (i0 + 1) _ e)
            refine le_trans ?_
              (addMat_diag_ge (mul_nonneg hl.le (effVolume_pos n).le) _ _ _ e)
            exact hstep
          · rw [if_neg hl]
            refine le_trans ?_ (diagLoop_diag_mono um lam Cspec hdt rest (i0 + 1) _ e)
            exact hstep
      | succ j2 =>
          have hj2 : j2 < rest.length := by simpa using hj
          have hum2 : 0 ≤ um (i0 + 1 + j2) := by
            rw [show i0 + 1 + j2 = i0 + (j2 + 1) by omega]; exact hum
          have hvol2 : (rest.getD j2 default).volume ≤ 0 := by simpa using hvol
          have hidx : i0 + (j2 + 1) = i0 + 1 + j2 := by omega
          rw [hidx]
          by_cases humh : um i0 < 0
          · simp only [diagLoop, if_pos humh]
            exact ih (i0 + 1) (A, b) j2 hj2 hum2 hvol2
          · simp only [diagLoop, if_neg humh]
            have h1 : 0 ≤ effVolume n / dt := (div_pos (effVolume_pos n) hdt).le
            set e := (um (i0 + 1 + j2)).toNat with he
            by_cases hl : lam > 0
            · rw [if_pos hl]
              refine le_trans ?_ (ih (i0 + 1) _ j2 hj2 hum2 hvol2)
              have hg1 := addMat_diag_ge h1 A (um i0).toNat (um i0).toNat e
              have hg2 := addMat_diag_ge (mul_nonneg hl.le (effVolume_pos n).le)
                (addMat A (um i0).toNat (um i0).toNat (effVolume n / dt))
                (um i0).toNat (um i0).toNat e
              linarith
            · rw [if_neg hl]
              refine le_trans ?_ (ih (i0 + 1) _ j2 hj2 hum2 hvol2)
              have hg1 := addMat_diag_ge h1 A (um i0).toNat (um i0).toNat e
              linarith

/-- C9: in the per-species implicit assembly, a non-ambient zone whose
volume is `≤ 0` has the volume 1.0 substituted in the `V/dt` and decay
terms (`effVolume`), and the diagonal entry of the assembled system for that
zone is at least `1/dt` (hence strictly positive): every other contribution
to the diagonal — other zones' `V/dt` and decay terms, donor upwind flow
terms `ṁ/ρ`, and removal sinks `R·V` — is non-negative under the data-model
invariants `ρ > 0`, `V ≥ 0`. -/
theorem zero_volume_zone_diagonal_guard (net : Network) (species : List Species)
    (sources : List Source) (schedules : List (ℤ × Schedule)) (C : ℕ → ℕ → ℝ)
    (specIdx : ℕ) (t dt : ℝ) (hdt : 0 < dt)
    (hρ : ∀ n ∈ net.nodes, 0 < n.density) (hV : ∀ n ∈ net.nodes, 0 ≤ n.volume)
    (i : ℕ) (hi : i < net.nodes.length)
    (hamb : ¬(net.node i).isKnownPressure) (hvol : (net.node i).volume ≤ 0) :
    effVolume (net.node i) = 1 ∧
    1 / dt ≤ (assembleSpeciesSystem net species sources schedules C specIdx t dt).1
      (unknownMapFn net.nodes i).toNat (unknownMapFn net.nodes i).toNat := by
  constructor
  · unfold effVolume
    rw [if_pos hvol]
  · have hum : 0 ≤ unknownMapFn net.nodes i := unknownMapFn_nonneg net.nodes i hi hamb
    have hdiag := diagLoop_focus (unknownMapFn net.nodes)
      (species.getD specIdx default).decayRate (fun i2 => C i2 specIdx) hdt
      net.nodes 0 (fun _ _ => 0, fun _ => 0) i (by simpa using hi)
      (by simpa using hum) hvol
    simp only [Nat.zero_add] at hdiag
    have hflow := flowLoop_diag_mono net (unknownMapFn net.nodes)
      (fun i2 => C i2 specIdx) (node_density_nonneg net hρ) net.links
      (diagLoop (unknownMapFn net.nodes) dt (species.getD specIdx default).decayRate
        (fun i2 => C i2 specIdx) net.nodes 0 (fun _ _ => 0, fun _ => 0))
      (unknownMapFn net.nodes i).toNat
    have hsrc := sourceLoop_diag_mono net (unknownMapFn net.nodes)
      (species.getD specIdx default).id schedules t dt (node_volume_nonneg net hV)
      sources
      (flowLoop net (unknownMapFn net.nodes) (fun i2 => C i2 specIdx) net.links
        (diagLoop (unknownMapFn net.nodes) dt (species.getD specIdx default).decayRate
          (fun i2 => C i2 specIdx) net.nodes 0 (fun _ _ => 0, fun _ => 0)))
      (unknownMapFn net.nodes i).toNat
    show 1 / dt ≤ (sourceLoop net (unknownMapFn net.nodes)
      (species.getD specIdx default).id schedules t dt sources
      (flowLoop net (unknownMapFn net.nodes) (fun i2 => C i2 specIdx) net.links
        (diagLoop (unknownMapFn net.nodes) dt (species.getD specIdx default).decayRate
          (fun i2 => C i2 specIdx) net.nodes 0 (fun _ _ => 0, fun _ => 0)))).1
      (unknownMapFn net.nodes i).toNat (unknownMapFn net.nodes i).toNat
    linarith [hdiag, hflow, hsrc]

/-- C9 witness: ambient zone plus a phantom zone of volume 0 (density 1.2
each), `dt = 60 > 0`: the substituted volume is 1 and the diagonal is at
least `1/60`. -/
theorem zero_volume_zone_diagonal_guard_witness :
    (0 : ℝ) < 60 ∧ effVolume (phantomNet.node 1) = 1 :=
  ⟨by norm_num,
    (zero_volume_zone_diagonal_guard phantomNet [] [] [] (fun _ _ => 0) 0 0 60
      (by norm_num)
      (by
        intro n hn
        simp only [phantomNet, List.mem_cons, List.not_mem_nil, or_false] at hn
        rcases hn with rfl | rfl <;> norm_num)
      (by
        intro n hn
        simp only [phantomNet, List.mem_cons, List.not_mem_nil, or_false] at hn
        rcases hn with rfl | rfl <;> norm_num)
      1 (by simp [phantomNet])
      (by simp [phantomNet, Network.node, Node.isKnownPressure])
      (by simp [phantomNet, Network.node])).1⟩

lemma runLoop_history_extends {σ : Type} (cb : ℝ → ℝ → Bool)
    (physStep : ℝ → ℝ → σ → σ) (endTime dt interval : ℝ) :
    ∀ (fuel : ℕ) (t nextOutput : ℝ) (s : σ) (hist : List (ℝ × σ)),
      hist <+: (runLoop cb physStep endTime dt interval fuel t nextOutput s hist).history := by
  intro fuel
  induction fuel with
  | zero =>
      intro t n s hist
      simp only [runLoop]
      by_cases h : t < endTime - 1e-10
      · rw [if_pos h]
      · rw [if_neg h]
  | succ fuel2 ih =>
      intro t n s hist
      simp only [runLoop]
      by_cases h : t < endTime - 1e-10
      · rw [if_pos h]
        by_cases hrec : t + min dt (endTime - t) ≥ n - 1e-10 ∨
            t + min dt (endTime - t) ≥ endTime - 1e-10
        · rw [if_pos hrec]
          by_cases hcb : cb (t + min dt (endTime - t)) endTime = false
          · rw [if_pos hcb]
            exact List.prefix_append hist _
          · rw [if_neg hcb]
            exact (List.prefix_append hist _).trans (ih _ _ _ _)
        · rw [if_neg hrec]
          by_cases hcb : cb (t + min dt (endTime - t)) endTime = false
          · rw [if_pos hcb]
          · rw [if_neg hcb]
            exact ih _ _ _ _
      · rw [if_neg h]

lemma runLoop_cancel_step {σ : Type} (cb : ℝ → ℝ → Bool)
    (physStep : ℝ → ℝ → σ → σ) (endTime dt interval : ℝ)
    (fuel : ℕ) (t nextOutput : ℝ) (s : σ) (hist : List (ℝ × σ))
    (ht : t < endTime - 1e-10)
    (hc : cb (t + min dt (endTime - t)) endTime = false) :
    (runLoop cb physStep endTime dt interval (fuel + 1) t nextOutput s
      hist).completed = false ∧
    (runLoop cb physStep endTime dt interval (fuel + 1) t nextOutput s
      hist).history.length ≤ hist.length + 1 := by
  simp only [runLoop]
  rw [if_pos ht]
  by_cases hrec : t + min dt (endTime - t) ≥ nextOutput - 1e-10 ∨
      t + min dt (endTime - t) ≥ endTime - 1e-10
  · rw [if_pos hrec, if_pos hc]
    exact ⟨rfl, by simp⟩
  · rw [if_neg hrec, if_pos hc]
    exact ⟨rfl, Nat.le_succ _⟩

lemma runLoop_cancelsAt_completed {σ : Type} (cb : ℝ → ℝ → Bool)
    (physStep : ℝ → ℝ → σ → σ) (endTime dt interval : ℝ) :
    ∀ (fuel : ℕ) (t nextOutput : ℝ) (s : σ) (hist : List (ℝ × σ)),
      cancelsAt cb endTime dt fuel t →
      (runLoop cb physStep endTime dt interval fuel t nextOutput s
        hist).completed = false := by
  intro fuel
  induction fuel with
  | zero => intro t n s hist hcan; exact absurd hcan id
  | succ fuel2 ih =>
      intro t n s hist hcan
      obtain ⟨ht, hor⟩ := hcan
      rcases hor with hfalse | ⟨htrue, hcan2⟩
      · exact (runLoop_cancel_step cb physStep endTime dt interval fuel2 t n s
          hist ht hfalse).1
      · simp only [runLoop]
        rw [if_pos ht]
        have hne : ¬(cb (t + min dt (endTime - t)) endTime = false) := by
          rw [htrue]
          simp
        rw [if_neg hne]
        exact ih _ _ _ _ hcan2

lemma runLoop_cancelsAt_history {σ : Type} (cb : ℝ → ℝ → Bool)
    (physStep : ℝ → ℝ → σ → σ) (endTime dt interval : ℝ) :
    ∀ (fuel : ℕ) (t nextOutput : ℝ) (s : σ) (hist : List (ℝ × σ)),
      cancelsAt cb endTime dt fuel t →
      (runLoop cb physStep endTime dt interval fuel t nextOutput s
        hist).history <+:
      (runLoop (fun _ _ => true) physStep endTime dt interval fuel t nextOutput s
        hist).history := by
  intro fuel
  induction fuel with
  | zero => intro t n s hist hcan; exact absurd hcan id
  | succ fuel2 ih =>
      intro t n s hist hcan
      obtain ⟨ht, hor⟩ := hcan
      have htne : ¬((fun (_ : ℝ) (_ : ℝ) => true) (t + min dt (endTime - t))
          endTime = false) := by simp
      simp only [runLoop]
      rw [if_pos ht, if_pos ht]
      rcases hor with hfalse | ⟨htrue, hcan2⟩
      · rw [if_pos hfalse, if_neg htne]
        by_cases hrec : t + min dt (endTime - t) ≥ n - 1e-10 ∨
            t + min dt (endTime - t) ≥ endTime - 1e-10
        · rw [if_pos hrec]
          exact runLoop_history_extends _ physStep endTime dt interval _ _ _ _ _
        · rw [if_neg hrec]
          exact runLoop_history_extends _ physStep endTime dt interval _ _ _ _ _
      · have hne : ¬(cb (t + min dt (endTime - t)) endTime = false) := by
          rw [htrue]
          simp
        rw [if_neg hne, if_neg htne]
        exact ih _ _ _ _ hcan2

lemma runLoop_completes {σ : Type} (cb : ℝ → ℝ → Bool)
    (physStep : ℝ → ℝ → σ → σ) (endTime dt interval : ℝ)
    (hcb : ∀ a b, cb a b = true) (hdt : 0 < dt) :
    ∀ (fuel : ℕ) (t nextOutput : ℝ) (s : σ) (hist : List (ℝ × σ)),
      endTime - t ≤ (fuel : ℝ) * min dt 1e-10 →
      (runLoop cb physStep endTime dt interval fuel t nextOutput s hist).completed
        = true := by
  have hδ : (0 : ℝ) < min dt 1e-10 := lt_min hdt (by norm_num)
  intro fuel
  induction fuel with
  | zero =>
      intro t n s hist hfuel
      simp only [Nat.cast_zero, zero_mul] at hfuel
      simp only [runLoop]
      rw [if_neg (by linarith [show (0 : ℝ) < 1e-10 by norm_num])]
  | succ fuel2 ih =>
      intro t n s hist hfuel
      simp only [runLoop]
      by_cases h : t < endTime - 1e-10
      · rw [if_pos h]
        have hcb2 : ¬(cb (t + min dt (endTime - t)) endTime = false) := by
          simp [hcb]
        rw [if_neg hcb2]
        apply ih
        have hmin : min dt 1e-10 ≤ min dt (endTime - t) :=
          min_le_min le_rfl (by linarith)
        have hcast : ((fuel2 + 1 : ℕ) : ℝ) = (fuel2 : ℝ) + 1 := by push_cast; ring
        rw [hcast] at hfuel
        have : endTime - (t + min dt (endTime - t)) ≤
            endTime - t - min dt 1e-10 := by linarith
        linarith
      · rw [if_neg h]

/-- C8: the progress callback is the sole cancellation point of
`TransientSimulation::run`.  (i) The accumulated history is always returned
intact: it is a prefix of the result's history from any loop state.  (ii) At
any reached step whose callback call returns `false`, the loop returns
immediately: `completed = false` with at most that step's snapshot appended.
(iii) For every run in which the callback returns `false` at some step
(`cancelsAt`, the claim's trigger, covering a first `false` at an arbitrary
later step), `run` returns `completed = false` and its history is the
accumulated prefix of the history the uncancelled run would record.  (iv) If
the callback never returns `false`, `run` returns `completed = true` (the
fuel bound `endTime - startTime ≤ fuel·min(dt,1e-10)` makes the C++ `while`
loop's termination explicit for `dt > 0`). -/
theorem run_cancellation_and_completion {σ : Type} (cb : ℝ → ℝ → Bool)
    (physStep : ℝ → ℝ → σ → σ) (startTime endTime dt interval : ℝ)
    (initState : σ) (fuel : ℕ) :
    (∀ (fuel2 : ℕ) (t n : ℝ) (s : σ) (hist : List (ℝ × σ)),
      hist <+: (runLoop cb physStep endTime dt interval fuel2 t n s hist).history) ∧
    (∀ (fuel2 : ℕ) (t n : ℝ) (s : σ) (hist : List (ℝ × σ)),
      t < endTime - 1e-10 →
      cb (t + min dt (endTime - t)) endTime = false →
      (runLoop cb physStep endTime dt interval (fuel2 + 1) t n s
        hist).completed = false ∧
      (runLoop cb physStep endTime dt interval (fuel2 + 1) t n s
        hist).history.length ≤ hist.length + 1) ∧
    (cancelsAt cb endTime dt fuel startTime →
      (TransientSimulation.run cb physStep startTime endTime dt interval
        initState fuel).completed = false ∧
      (TransientSimulation.run cb physStep startTime endTime dt interval
        initState fuel).history <+:
      (TransientSimulation.run (fun _ _ => true) physStep startTime endTime dt
        interval initState fuel).history) ∧
    ((∀ a b, cb a b = true) → 0 < dt →
      endTime - startTime ≤ (fuel : ℝ) * min dt 1e-10 →
      (TransientSimulation.run cb physStep startTime endTime dt interval
        initState fuel).completed = true) := by
  refine ⟨fun fuel2 t n s hist =>
    runLoop_history_extends cb physStep endTime dt interval fuel2 t n s hist,
    fun fuel2 t n s hist ht hc =>
      runLoop_cancel_step cb physStep endTime dt interval fuel2 t n s hist ht hc,
    fun hcan => ⟨?_, ?_⟩,
    fun hT hdt hfuel => ?_⟩
  · exact runLoop_cancelsAt_completed cb physStep endTime dt interval fuel
      startTime (startTime + interval) initState [(startTime, initState)] hcan
  · exact runLoop_cancelsAt_history cb physStep endTime dt interval fuel
      startTime (startTime + interval) initState [(startTime, initState)] hcan
  · exact runLoop_completes cb physStep endTime dt interval hT hdt fuel
      startTime (startTime + interval) initState [(startTime, initState)] hfuel

/-- C8 witness: a run from 0 to 100 s with `dt = 60 s` and a counter as
physics state.  The callback `t < 80` answers `true` at the first step
(`t = 60`) and `false` at the second step (`t = 100`) — cancellation at a
later step — so the run returns `completed = false`; the always-true
callback completes under the fuel bound. -/
theorem run_cancellation_and_completion_witness :
    cancelsAt (fun a (_ : ℝ) => if a < (80 : ℝ) then true else false) 100 60 2 0 ∧
    (TransientSimulation.run (fun a (_ : ℝ) => if a < (80 : ℝ) then true else false)
      (fun _ _ (s : ℕ) => s + 1) 0 100 60 60 0 2).completed = false ∧
    (∀ a b : ℝ, (fun (_ : ℝ) (_ : ℝ) => true) a b = true) ∧
    (TransientSimulation.run (fun (_ : ℝ) (_ : ℝ) => true)
      (fun _ _ (s : ℕ) => s + 1) 0 100 60 60 0 (10 ^ 12)).completed = true := by
  have e1 : (0 : ℝ) + min 60 (100 - 0) = 60 := by
    rw [min_eq_left (by norm_num : (60 : ℝ) ≤ 100 - 0)]
    norm_num
  have e2 : (60 : ℝ) + min 60 (100 - 60) = 100 := by
    rw [min_eq_right (by norm_num : (100 : ℝ) - 60 ≤ 60)]
    norm_num
  have hcan : cancelsAt (fun a (_ : ℝ) => if a < (80 : ℝ) then true else false)
      100 60 2 0 := by
    simp only [cancelsAt]
    rw [e1]
    refine ⟨by norm_num, Or.inr ⟨?_, by norm_num, ?_⟩⟩
    · rw [if_pos (by norm_num : (60 : ℝ) < 80)]
    · rw [e2]
      exact Or.inl (by rw [if_neg (by norm_num : ¬(100 : ℝ) < 80)])
  exact ⟨hcan,
    ((run_cancellation_and_completion
      (fun a (_ : ℝ) => if a < (80 : ℝ) then true else false)
      (fun _ _ (s : ℕ) => s + 1) 0 100 60 60 0 2).2.2.1 hcan).1,
    fun _ _ => rfl,
    (run_cancellation_and_completion (fun (_ : ℝ) (_ : ℝ) => true)
      (fun _ _ (s : ℕ) => s + 1) 0 100 60 60 0 (10 ^ 12)).2.2.2
      (fun _ _ => rfl) (by norm_num)
      (by rw [min_eq_right (by norm_num : (1e-10 : ℝ) ≤ 60)]; norm_num)⟩

end

end AirSim
